import Mathlib

/-
Verification development for the otel_broccoli distribution engine
(src/augmentation.rs): duration parsing, the three datapoint distributors
(even, early_fill, sparse_fill), the sparse-fill zone machinery and the
dispatcher.

Modelling conventions:
* Rust's ambient RNG (`rand::rng()`) is modelled as an oracle `g : Nat → Nat`
  together with a running draw counter `k`; each call to `random_range(lo..hi)`
  consumes one oracle value and reduces it into the requested range exactly as
  a uniform draw would land there (`lo + g k % (hi - lo)`).  Theorems quantify
  over all oracles, i.e. over every possible sequence of random outcomes.
* A Rust panic (empty `random_range` range, integer division by zero,
  out-of-bounds index) is the explicit error value `Err.panicked`.
* The `loop` in `pick_2_random_datapoint` (and the slot-placement retry loop
  of sparse fill) is unbounded in the source; it is modelled with a fuel
  parameter, and running out of fuel is the distinct error value
  `Err.fuelOut`, so genuine panics and the bounded-model artifact are never
  conflated.
* `i16` values are carried as `Int` with release-mode wrapping semantics
  (`wrap16`) applied exactly where the source converts (`as i16`) or performs
  `i16` arithmetic (`+=`, `-=`).  `u32` values are carried as `Nat`; the only
  `u32` operations that can leave `Nat` semantics in reachable code paths are
  modelled with explicit wrapping (`u32wrapSub`, `u32cast`).
* The two `f32` constants of the source (`0.2` in the even distributor's
  shuffle count, `0.01` in the early-fill ceiling) are emulated exactly:
  `0.2f32 = 13421773 * 2^-26` and `0.01f32 = 10737418 * 2^-30`, with
  round-to-nearest-even at 24 significand bits for `as f32` conversions and
  for the product, and truncation for `as u32`.
-/

/-- Decidable equality for `Except`, so concrete runs of the modelled code
can be checked by `decide`. -/
instance {e a : Type} [DecidableEq e] [DecidableEq a] : DecidableEq (Except e a) := fun x y =>
  match x, y with
  | .ok u, .ok v =>
    if h : u = v then isTrue (by rw [h]) else isFalse (by intro hc; cases hc; exact h rfl)
  | .error u, .error v =>
    if h : u = v then isTrue (by rw [h]) else isFalse (by intro hc; cases hc; exact h rfl)
  | .ok _, .error _ => isFalse (by intro hc; cases hc)
  | .error _, .ok _ => isFalse (by intro hc; cases hc)

/-- Outcome classification for a modelled run: `panicked` is a genuine Rust
panic (empty random range, division by zero, index out of bounds);
`fuelOut` is exhaustion of the fuel bounding an unbounded source loop;
`parseFail` models a returned `Err` from duration parsing; `unknownModel`
models the dispatcher's unknown-distribution error. -/
inductive Err where
  | panicked
  | fuelOut
  | parseFail
  | unknownModel
deriving DecidableEq, Repr

/-- Wrap an integer into the `i16` value range, i.e. two's-complement
truncation to 16 bits (Rust release-mode `as i16` / wrapping arithmetic). -/
def wrap16 (x : Int) : Int := (x + 32768) % 65536 - 32768

/-- Rust `i16` subtraction with release-mode wrapping. -/
def i16sub (a b : Int) : Int := wrap16 (a - b)

/-- Rust `i16` addition with release-mode wrapping. -/
def i16add (a b : Int) : Int := wrap16 (a + b)

/-- Rust `a as u32` applied to an `i64` value: two's-complement truncation to
32 bits, yielding a `Nat` in `[0, 2^32)`. -/
def u32cast (x : Int) : Nat := (x % 4294967296).toNat

/-- Rust release-mode wrapping `u32` subtraction `a - b` for `a b : Nat`
already reduced mod `2^32`. -/
def u32wrapSub (a b : Nat) : Nat := (((a : Int) - (b : Int)) % 4294967296).toNat

/-- Floor base-2 logarithm by structural recursion on fuel (evaluates by
kernel reduction, unlike the well-founded `Nat.log2`); `log2floor n n` is
`Nat.log2 n`. -/
def log2floor : Nat → Nat → Nat
  | 0, _ => 0
  | fuel + 1, n => if 2 ≤ n then log2floor fuel (n / 2) + 1 else 0

/-- Round the positive integer `p`, understood as the real value `p * 2^e`,
to 24 significand bits with round-to-nearest, ties to even — the rounding
step of IEEE-754 single precision (exponent range is never exercised by the
small values appearing in the source). Returns the rounded significand and
adjusted exponent. -/
def f32norm (p : Nat) (e : Int) : Nat × Int :=
  if p = 0 then (0, 0)
  else
    let L := log2floor p p
    if L ≤ 23 then (p, e)
    else
      let sh := L - 23
      let q := p >>> sh
      let r := p % (1 <<< sh)
      let half := 1 <<< (sh - 1)
      let q' := if half < r ∨ (r = half ∧ q % 2 = 1) then q + 1 else q
      (q', e + sh)

/-- The value `m * 2^e` truncated toward zero to a natural number — the final
`as u32` step applied to a nonnegative `f32` value (saturates only far above
the magnitudes reachable here). -/
def f32truncToNat (me : Nat × Int) : Nat :=
  if 0 ≤ me.2 then me.1 <<< me.2.toNat else me.1 >>> (-me.2).toNat

/-- Exact `f32` product of the `u32` value `n` with the constant `c * 2^e`:
`n` is first rounded to `f32` (`n as f32`), the product is rounded again,
matching IEEE-754 single-precision multiplication. -/
def f32mulConst (n : Nat) (c : Nat) (e : Int) : Nat × Int :=
  let nf := f32norm n 0
  f32norm (nf.1 * c) (nf.2 + e)

/-- Model of `(num_entries_to_generate as f32 * 0.2) as u32`
(src/augmentation.rs line 185): the even distributor's perturbation count.
`0.2f32` is exactly `13421773 * 2^-26`. -/
def shuffleCount (n : Nat) : Nat := f32truncToNat (f32mulConst n 13421773 (-26))

/-- Model of `(num_entries_to_generate as f32 * 0.01) as u32`
(src/augmentation.rs line 232): the early-fill distributor's logical ceiling.
`0.01f32` is exactly `10737418 * 2^-30`. -/
def logicalCeiling (n : Nat) : Nat := f32truncToNat (f32mulConst n 10737418 (-30))

/-- Model of `rand::rng().random_range(lo..hi)` on integers: panics when the
range is empty, otherwise consumes one oracle value and returns a value in
`[lo, hi)` together with the advanced draw counter. -/
def rrange (g : Nat → Nat) (k : Nat) (lo hi : Int) : Except Err (Int × Nat) :=
  if lo < hi then .ok (lo + (g k : Int) % (hi - lo), k + 1) else .error .panicked

/-- The retry loop inside `pick_2_random_datapoint` (src/augmentation.rs
lines 210-217): redraw `second_slot` until it differs from `first_slot`;
fuel bounds the unbounded source loop. -/
def pick2Second (g : Nat → Nat) (n first : Int) : Nat → Nat → Except Err (Int × Nat)
  | 0, _ => .error .fuelOut
  | fuel + 1, k =>
    match rrange g k 0 n with
    | .error e => .error e
    | .ok (s, k') => if s ≠ first then .ok (s, k') else pick2Second g n first fuel k'

/-- Model of `pick_2_random_datapoint` (src/augmentation.rs lines 207-219):
two random indices in `[0, slots_length)`, redrawing the second until it is
distinct from the first. -/
def pick_2_random_datapoint (g : Nat → Nat) (k : Nat) (fuel : Nat) (slots_length : Int) :
    Except Err ((Int × Int) × Nat) :=
  match rrange g k 0 slots_length with
  | .error e => .error e
  | .ok (first, k') =>
    match pick2Second g slots_length first fuel k' with
    | .error e => .error e
    | .ok (second, k'') => .ok ((first, second), k'')

/-- Iterate an effectful step `n` times (the shape of every
`for _ in 0..n { ... }` perturbation loop of the source), propagating the
first error. -/
def exFold {α : Type} (f : α → Except Err α) : Nat → α → Except Err α
  | 0, a => .ok a
  | n + 1, a =>
    match f a with
    | .error e => .error e
    | .ok b => exFold f n b

/-- Rust `char::is_ascii_digit`. -/
def isAsciiDigit (c : Char) : Bool := '0' ≤ c && c ≤ '9'

/-- Numeric value of a list of ASCII digits, most significant first (the
value `"..".parse::<i64>()` computes when it succeeds). -/
def digitsToNat (s : List Char) : Nat :=
  s.foldl (fun a c => a * 10 + (c.toNat - '0'.toNat)) 0

/-- Model of `num.parse::<i64>()` applied to the all-digit prefix: fails on an
empty string and on overflow past `i64::MAX`; a digit-only string carries no
sign, so the result is the digits' value. -/
def parseI64digits (s : List Char) : Option Int :=
  if s = [] then none
  else if digitsToNat s ≤ 9223372036854775807 then some (digitsToNat s) else none

/-- Model of `parse_time_duration_value_and_unit` (src/augmentation.rs lines
72-79): split at the first non-ASCII-digit character (`find` returns `None`
when every character is a digit, which aborts via `?`), then parse the prefix
as an `i64` (`.ok()?`). -/
def parse_time_duration_value_and_unit (value : List Char) :
    Option (Int × List Char) :=
  if value.all isAsciiDigit then none
  else
    let num := value.takeWhile isAsciiDigit
    let unit := value.dropWhile isAsciiDigit
    match parseI64digits num with
    | none => none
    | some n => some (n, unit)

/-- Model of `parse_time_duration` (src/augmentation.rs lines 83-103),
returning the parsed `chrono::Duration` as a number of seconds: `s`/`m`/`h`/`d`
multiply by 1/60/3600/86400, any other unit yields the zero duration, and a
`None` from the splitter is surfaced as an error. -/
def parse_time_duration (value : List Char) : Except Err Int :=
  match parse_time_duration_value_and_unit value with
  | none => .error .parseFail
  | some (num, unit) =>
    if unit = ['s'] then .ok num
    else if unit = ['m'] then .ok (60 * num)
    else if unit = ['h'] then .ok (3600 * num)
    else if unit = ['d'] then .ok (86400 * num)
    else .ok 0

/-- Model of the `DataPoint` struct (src/augmentation.rs lines 107-110):
`timestamp` in whole seconds, `rows_to_add` an `i16` value. -/
structure DataPoint where
  timestamp : Int
  rows_to_add : Int
deriving DecidableEq, Repr

/-- Sum of the `rows_to_add` fields of a list of datapoints. -/
def countSum (l : List DataPoint) : Int := (l.map (fun dp => dp.rows_to_add)).sum

/-- The "first fill" loop of `generate_datapoints_even` (src/augmentation.rs
lines 162-181): every slot except the last receives
`num_entries as i64 / duration_in_seconds` (as `i16`), the running `i64` sum
accumulates it, and the last slot receives `num_entries as i16 - sum as i16`.
The accumulator pairs the slots built so far with the running sum. -/
def even_first_fill (start_time : Int) (duration_in_seconds : Int)
    (num_entries : Nat) : List DataPoint :=
  let per := Int.tdiv (num_entries : Int) duration_in_seconds
  (((List.range duration_in_seconds.toNat).foldl
    (fun (st : List DataPoint × Int) (i : Nat) =>
      if (i : Int) ≠ duration_in_seconds - 1 then
        (st.1 ++ [⟨start_time + i, wrap16 per⟩], st.2 + per)
      else
        (st.1 ++ [⟨start_time + i,
                   i16sub (wrap16 (num_entries : Int)) (wrap16 st.2)⟩], st.2))
    ([], 0))).1

/-- One iteration of the even distributor's "second fill" perturbation loop
(src/augmentation.rs lines 186-203): pick two distinct slots, skip when the
first slot holds exactly 1, otherwise move a random delta in
`[1, first_slot_rows)` from the first to the second slot (`i16` arithmetic). -/
def even_shuffle_step (g : Nat → Nat) (fuel : Nat) (duration_in_seconds : Int)
    (st : List DataPoint × Nat) : Except Err (List DataPoint × Nat) :=
  match pick_2_random_datapoint g st.2 fuel duration_in_seconds with
  | .error e => .error e
  | .ok ((first_slot, second_slot), k) =>
    match st.1[first_slot.toNat]? with
    | none => .error .panicked
    | some dp =>
      if dp.rows_to_add = 1 then .ok (st.1, k)
      else
        match rrange g k 1 dp.rows_to_add with
        | .error e => .error e
        | .ok (delta, k') =>
          let l1 := st.1.set first_slot.toNat
            { dp with rows_to_add := i16sub dp.rows_to_add delta }
          match l1[second_slot.toNat]? with
          | none => .error .panicked
          | some dq =>
            .ok (l1.set second_slot.toNat
              { dq with rows_to_add := i16add dq.rows_to_add delta }, k')

/-- Model of `generate_datapoints_even` (src/augmentation.rs lines 156-205):
the base fill (whose leading division panics when `duration_in_seconds = 0`)
followed by `(num_entries as f32 * 0.2) as u32` perturbation iterations. -/
def generate_datapoints_even (g : Nat → Nat) (k : Nat) (fuel : Nat)
    (start_time : Int) (duration_in_seconds : Int) (num_entries : Nat) :
    Except Err (List DataPoint) :=
  if duration_in_seconds = 0 then .error .panicked
  else
    match exFold (even_shuffle_step g fuel duration_in_seconds)
        (shuffleCount num_entries)
        (even_first_fill start_time duration_in_seconds num_entries, k) with
    | .error e => .error e
    | .ok (dps, _) => .ok dps

/-- The body of `generate_datapoints_early_fill`'s slot loop
(src/augmentation.rs lines 239-267), iterating over the remaining slot
indices: draw `rows_to_add` uniformly from
`[logical_floor, logical_ceiling] = [1, ceiling]` (an empty range when
`ceiling = 0`), clamp it to the remaining budget, push the datapoint, and
break once the accumulated sum reaches `num_entries`.  The running sum is a
`u32`, so the guard `sum + rows_to_add > num_entries_to_generate`
(src/augmentation.rs line 242) compares the release-mode wrapped `u32`
addition, as does the `sum += rows_to_add` branch. -/
def early_fill_loop (g : Nat → Nat) (start_time : Int) (num_entries : Nat)
    (ceiling : Nat) :
    List Nat → List DataPoint × Nat × Nat → Except Err (List DataPoint × Nat)
  | [], (pts, _, k) => .ok (pts, k)
  | i :: rest, (pts, sum, k) =>
    match rrange g k 1 ((ceiling : Int) + 1) with
    | .error e => .error e
    | .ok (d, k') =>
      let draw := d.toNat
      let rs : Nat × Nat :=
        if num_entries < (sum + draw) % 4294967296
        then (num_entries - sum, num_entries)
        else (draw, (sum + draw) % 4294967296)
      let pts' := pts ++ [⟨start_time + (i : Int), wrap16 (rs.1 : Int)⟩]
      if rs.2 = num_entries then .ok (pts', k')
      else early_fill_loop g start_time num_entries ceiling rest (pts', rs.2, k')

/-- Model of `generate_datapoints_early_fill` (src/augmentation.rs lines
221-269): logical ceiling `(num_entries as f32 * 0.01) as u32`, logical floor
`1`, then the greedy front-loaded loop over `0..duration_in_seconds`. -/
def generate_datapoints_early_fill (g : Nat → Nat) (k : Nat)
    (start_time : Int) (duration_in_seconds : Int) (num_entries : Nat) :
    Except Err (List DataPoint) :=
  match early_fill_loop g start_time num_entries (logicalCeiling num_entries)
      (List.range duration_in_seconds.toNat) ([], 0, k) with
  | .error e => .error e
  | .ok (pts, _) => .ok pts

/-- Model of the `DataZone` struct (src/augmentation.rs lines 409-413):
an inclusive candidate time span with a `u32` allocation. -/
structure DataZone where
  start_time : Int
  end_time : Int
  num_rows_to_add : Nat
deriving DecidableEq, Repr

/-- The "first fill" of sparse fill's zone allocations (src/augmentation.rs
lines 292-301): each zone except the last receives
`zone_allocation_ceiling = num_entries / num_of_zone`, the last receives
`num_entries - sum`; the accumulator pairs the allocations built so far with
the running sum. -/
def zone_first_fill (num_of_zone : Nat) (num_entries : Nat) (ceiling : Nat) :
    List Nat :=
  (((List.range num_of_zone).foldl
    (fun (st : List Nat × Nat) (i : Nat) =>
      if i = num_of_zone - 1 then (st.1 ++ [num_entries - st.2], st.2)
      else (st.1 ++ [ceiling], st.2 + ceiling))
    ([], 0))).1

/-- One iteration of sparse fill's zone-allocation shuffle
(src/augmentation.rs lines 304-315): pick two distinct zones, skip when the
first zone's allocation is below 2, otherwise move a random delta in
`[1, upper_bound)` between them (`u32` arithmetic, which never leaves `Nat`
range here because the total allocation is bounded by `num_entries`). -/
def zone_shuffle_step (g : Nat → Nat) (fuel : Nat) (num_of_zone : Nat)
    (st : List Nat × Nat) : Except Err (List Nat × Nat) :=
  match pick_2_random_datapoint g st.2 fuel (num_of_zone : Int) with
  | .error e => .error e
  | .ok ((first_slot, second_slot), k) =>
    match st.1[first_slot.toNat]? with
    | none => .error .panicked
    | some upper_bound =>
      if upper_bound < 2 then .ok (st.1, k)
      else
        match rrange g k 1 (upper_bound : Int) with
        | .error e => .error e
        | .ok (delta, k') =>
          let l1 := st.1.set first_slot.toNat (upper_bound - delta.toNat)
          match l1[second_slot.toNat]? with
          | none => .error .panicked
          | some v => .ok (l1.set second_slot.toNat (v + delta.toNat), k')

/-- The slot-placement retry loop of
`generate_sparse_fill_zone_and_boundaries` (src/augmentation.rs lines
396-404): redraw a random candidate-slot index until one with
`num_rows_to_add == 0` is found, then store this zone's allocation there;
fuel bounds the unbounded source loop. -/
def place_one_zone (g : Nat → Nat) (zone : Nat) :
    Nat → Nat → List DataZone → Except Err (List DataZone × Nat)
  | 0, _, _ => .error .fuelOut
  | fuel + 1, k, data_zones =>
    match rrange g k 0 (data_zones.length : Int) with
    | .error e => .error e
    | .ok (idx, k') =>
      match data_zones[idx.toNat]? with
      | none => .error .panicked
      | some z =>
        if z.num_rows_to_add = 0 then
          .ok (data_zones.set idx.toNat { z with num_rows_to_add := zone }, k')
        else place_one_zone g zone fuel k' data_zones

/-- Fold `place_one_zone` over the zone allocations (the outer `for zone in
data_zones_to_be_generated` loop of src/augmentation.rs lines 396-404). -/
def place_all_zones (g : Nat → Nat) (fuel : Nat) :
    List Nat → List DataZone × Nat → Except Err (List DataZone × Nat)
  | [], st => .ok st
  | zone :: rest, (data_zones, k) =>
    match place_one_zone g zone fuel k data_zones with
    | .error e => .error e
    | .ok (data_zones', k') => place_all_zones g fuel rest (data_zones', k')

/-- Model of `generate_sparse_fill_zone_and_boundaries` (src/augmentation.rs
lines 363-406): build `generation_factor * len` candidate slots — slot `i`
starts at `start_time + zone_span * i` and ends a second before the next slot
starts, except the last slot, which ends at `start_time +
duration_in_seconds` — then place every zone allocation into a randomly
chosen still-empty slot.  `zone_span = duration_in_seconds / data_zones_len`
is an `i64` division, a panic when the slot count is zero. -/
def generate_sparse_fill_zone_and_boundaries (g : Nat → Nat) (k : Nat)
    (fuel : Nat) (data_zones_to_be_generated : List Nat)
    (generation_factor : Nat) (start_time : Int) (duration_in_seconds : Int) :
    Except Err (List DataZone × Nat) :=
  let data_zones_len := generation_factor * data_zones_to_be_generated.length
  if data_zones_len = 0 then .error .panicked
  else
    let zone_span := Int.tdiv duration_in_seconds (data_zones_len : Int)
    let base : List DataZone := (List.range data_zones_len).map (fun (i : Nat) =>
      { start_time := start_time + zone_span * (i : Int)
        end_time :=
          if i = data_zones_len - 1 then start_time + duration_in_seconds
          else start_time + zone_span * (i : Int) + (zone_span - 1)
        num_rows_to_add := 0 })
    place_all_zones g fuel data_zones_to_be_generated (base, k)

/-- The "first fill" of `generate_sparse_fill_zone_datapoints`
(src/augmentation.rs lines 437-450): one datapoint per second of the zone's
duration, each carrying `num_rows_to_add / (duration as u32)` rows, except
the last, which carries `num_rows_to_add - sum` (`u32` wrapping subtraction);
the accumulator pairs the datapoints with the mutable per-second value and
the running `u32` sum. -/
def zone_datapoints_first_fill (data_zone : DataZone) (durN : Nat) (per : Nat) :
    List DataPoint :=
  (((List.range durN).foldl
    (fun (st : List DataPoint × Nat × Nat) (i : Nat) =>
      let rows := if i = durN - 1 then u32wrapSub data_zone.num_rows_to_add st.2.2
                  else st.2.1
      (st.1 ++ [⟨data_zone.start_time + (i : Int), wrap16 (rows : Int)⟩],
       rows, (st.2.2 + rows) % 4294967296))
    ([], per, 0))).1

/-- One iteration of the in-zone perturbation loop
(src/augmentation.rs lines 452-462): pick two distinct datapoints, skip when
the first holds fewer than 2 rows, otherwise move a random delta in
`[1, rows_available)` between them (`i16` arithmetic). -/
def zone_datapoints_shuffle_step (g : Nat → Nat) (fuel : Nat)
    (st : List DataPoint × Nat) : Except Err (List DataPoint × Nat) :=
  match pick_2_random_datapoint g st.2 fuel (st.1.length : Int) with
  | .error e => .error e
  | .ok ((idx1, idx2), k) =>
    match st.1[idx1.toNat]? with
    | none => .error .panicked
    | some dp =>
      if dp.rows_to_add < 2 then .ok (st.1, k)
      else
        match rrange g k 1 dp.rows_to_add with
        | .error e => .error e
        | .ok (delta, k') =>
          let l1 := st.1.set idx1.toNat
            { dp with rows_to_add := i16sub dp.rows_to_add delta }
          match l1[idx2.toNat]? with
          | none => .error .panicked
          | some dq =>
            .ok (l1.set idx2.toNat
              { dq with rows_to_add := i16add dq.rows_to_add delta }, k')

/-- Model of `generate_sparse_fill_zone_datapoints` (src/augmentation.rs
lines 425-464): `duration` is the difference of the zone's timestamps; the
per-second value is `num_rows_to_add / (duration as u32)` — a `u32` division
that panics when `duration as u32` is zero; after the first fill the
perturbation loop runs `duration * 3` times over the produced datapoints. -/
def generate_sparse_fill_zone_datapoints (g : Nat → Nat) (k : Nat)
    (fuel : Nat) (data_zone : DataZone) : Except Err (List DataPoint × Nat) :=
  let duration := data_zone.end_time - data_zone.start_time
  if u32cast duration = 0 then .error .panicked
  else
    let per := data_zone.num_rows_to_add / u32cast duration
    let first := zone_datapoints_first_fill data_zone duration.toNat per
    exFold (zone_datapoints_shuffle_step g fuel)
      (duration * 3).toNat (first, k)

/-- The emission loop of `generate_datapoints_sparse_fill`
(src/augmentation.rs lines 354-359): zones with a positive allocation emit
their datapoints, which are appended in zone order; gap zones contribute
nothing. -/
def sparse_emit (g : Nat → Nat) (fuel : Nat) :
    List DataZone → List DataPoint × Nat → Except Err (List DataPoint × Nat)
  | [], st => .ok st
  | zone :: rest, (pts, k) =>
    if 0 < zone.num_rows_to_add then
      match generate_sparse_fill_zone_datapoints g k fuel zone with
      | .error e => .error e
      | .ok (zone_pts, k') => sparse_emit g fuel rest (pts ++ zone_pts, k')
    else sparse_emit g fuel rest (pts, k)

/-- The constant `DEFAULT_SPARSE_FILL_ZONE_GENERATION_FACTOR`
(src/augmentation.rs line 5). -/
def DEFAULT_SPARSE_FILL_ZONE_GENERATION_FACTOR : Nat := 3

/-- Model of `generate_datapoints_sparse_fill` (src/augmentation.rs lines
271-361): draw `num_of_zone` from `3..=6`, allocate `num_entries` across the
zones (base fill + `num_of_zone * 5` shuffle iterations), compute the
candidate slots and place the allocations, then emit the occupied zones. -/
def generate_datapoints_sparse_fill (g : Nat → Nat) (k : Nat) (fuel : Nat)
    (start_time : Int) (duration_in_seconds : Int) (num_entries : Nat) :
    Except Err (List DataPoint) :=
  match rrange g k 3 7 with
  | .error e => .error e
  | .ok (noz, k1) =>
    let num_of_zone := noz.toNat
    let zone_allocation_ceiling := num_entries / num_of_zone
    let first := zone_first_fill num_of_zone num_entries zone_allocation_ceiling
    match exFold (zone_shuffle_step g fuel num_of_zone) (num_of_zone * 5)
        (first, k1) with
    | .error e => .error e
    | .ok (zone_allocations, k2) =>
      match generate_sparse_fill_zone_and_boundaries g k2 fuel
          zone_allocations DEFAULT_SPARSE_FILL_ZONE_GENERATION_FACTOR
          start_time duration_in_seconds with
      | .error e => .error e
      | .ok (zone_slots, k3) =>
        match sparse_emit g fuel zone_slots ([], k3) with
        | .error e => .error e
        | .ok (datapoints, _) => .ok datapoints

/-- ASCII lowercase mapping (the fragment of Rust's `to_lowercase` exercised
by the three ASCII strategy names the dispatcher compares against). -/
def asciiToLower (c : Char) : Char :=
  if 'A' ≤ c && c ≤ 'Z' then Char.ofNat (c.toNat + 32) else c

/-- Model of `generate_datapoints` (src/augmentation.rs lines 112-154), the
distribution dispatcher.  The time-range resolver's start instant is
abstracted into the `start_time` parameter (its chrono timestamp parsing is
outside the modelled core); `generation_duration` is parsed with
`parse_time_duration` and its `num_seconds` value is handed, without any
validation, to the distributor selected by the lower-cased model name. -/
def generate_datapoints (g : Nat → Nat) (k : Nat) (fuel : Nat)
    (start_time : Int) (distribution_by : List Char)
    (generation_duration : List Char) (number_of_entries : Nat) :
    Except Err (List DataPoint) :=
  match parse_time_duration generation_duration with
  | .error e => .error e
  | .ok duration_in_seconds =>
    let model := distribution_by.map asciiToLower
    if model = "even".toList then
      generate_datapoints_even g k fuel start_time duration_in_seconds
        number_of_entries
    else if model = "early_fill".toList then
      generate_datapoints_early_fill g k start_time duration_in_seconds
        number_of_entries
    else if model = "sparse_fill".toList then
      generate_datapoints_sparse_fill g k fuel start_time duration_in_seconds
        number_of_entries
    else .error .unknownModel

/-! Basic facts about the random-draw and loop combinators. -/

/-- A successful `rrange` draw lies in `[lo, hi)` and advances the counter. -/
theorem rrange_bounds {g : Nat → Nat} {k : Nat} {lo hi v : Int} {k' : Nat}
    (h : rrange g k lo hi = .ok (v, k')) :
    lo ≤ v ∧ v < hi ∧ k' = k + 1 := by
  unfold rrange at h
  split at h
  · rename_i hlt
    cases h
    refine ⟨?_, ?_, rfl⟩
    · have := Int.emod_nonneg (g k : Int) (by omega : hi - lo ≠ 0)
      omega
    · have := Int.emod_lt_of_pos (g k : Int) (by omega : (0:Int) < hi - lo)
      omega
  · cases h

/-- `rrange` succeeds exactly on nonempty ranges. -/
theorem rrange_ok_of_lt {g : Nat → Nat} {k : Nat} {lo hi : Int} (h : lo < hi) :
    rrange g k lo hi = .ok (lo + (g k : Int) % (hi - lo), k + 1) := by
  unfold rrange
  simp [h]

theorem pick2Second_bounds {g : Nat → Nat} {n first : Int} :
    ∀ {fuel k : Nat} {s : Int} {k' : Nat},
    pick2Second g n first fuel k = .ok (s, k') → 0 ≤ s ∧ s < n ∧ s ≠ first := by
  intro fuel
  induction fuel with
  | zero => intro k s k' h; cases h
  | succ m ih =>
    intro k s k' h
    unfold pick2Second at h
    cases hr : rrange g k 0 n with
    | error e => rw [hr] at h; cases h
    | ok p =>
      rw [hr] at h
      obtain ⟨v, k1⟩ := p
      by_cases hv : v ≠ first
      · simp [hv] at h
        obtain ⟨h1, h2⟩ := h
        have := rrange_bounds hr
        subst h1; subst h2
        exact ⟨this.1, this.2.1, hv⟩
      · simp [hv] at h
        exact ih h

/-- A successful `pick_2_random_datapoint` returns two distinct indices in
`[0, slots_length)`. -/
theorem pick2_bounds {g : Nat → Nat} {k fuel : Nat} {n a b : Int} {k' : Nat}
    (h : pick_2_random_datapoint g k fuel n = .ok ((a, b), k')) :
    0 ≤ a ∧ a < n ∧ 0 ≤ b ∧ b < n ∧ a ≠ b := by
  unfold pick_2_random_datapoint at h
  cases hr : rrange g k 0 n with
  | error e => rw [hr] at h; cases h
  | ok p =>
    rw [hr] at h
    obtain ⟨first, k1⟩ := p
    dsimp only at h
    cases hs : pick2Second g n first fuel k1 with
    | error e => rw [hs] at h; cases h
    | ok q =>
      rw [hs] at h
      obtain ⟨second, k2⟩ := q
      cases h
      have h1 := rrange_bounds hr
      have h2 := pick2Second_bounds hs
      exact ⟨h1.1, h1.2.1, h2.1, h2.2.1, fun hab => h2.2.2 hab.symm⟩

/-- An invariant preserved by each successful step is preserved by any number
of `exFold` iterations. -/
theorem exFold_inv {α : Type} {f : α → Except Err α} {P : α → Prop}
    (hf : ∀ a b, P a → f a = .ok b → P b) :
    ∀ {n : Nat} {a c : α}, P a → exFold f n a = .ok c → P c := by
  intro n
  induction n with
  | zero => intro a c hp h; cases h; exact hp
  | succ m ih =>
    intro a c hp h
    unfold exFold at h
    cases hfa : f a with
    | error e => rw [hfa] at h; cases h
    | ok b => rw [hfa] at h; exact ih (hf a b hp hfa) h

/-! List arithmetic used by the perturbation invariants. -/

theorem countSum_append (l1 l2 : List DataPoint) :
    countSum (l1 ++ l2) = countSum l1 + countSum l2 := by
  unfold countSum
  rw [List.map_append, List.sum_append]

theorem countSum_set :
    ∀ (l : List DataPoint) (i : Nat) (dp x : DataPoint), l[i]? = some dp →
    countSum (l.set i x) = countSum l - dp.rows_to_add + x.rows_to_add := by
  intro l
  induction l with
  | nil => intro i dp x h; simp at h
  | cons a t ih =>
    intro i dp x h
    cases i with
    | zero =>
      simp at h
      subst h
      simp [countSum, List.set]
      ring
    | succ j =>
      simp at h
      have := ih j dp x h
      simp [countSum, List.set] at this ⊢
      omega

theorem elem_le_countSum :
    ∀ (l : List DataPoint) (i : Nat) (dp : DataPoint),
    (∀ y ∈ l, 0 ≤ y.rows_to_add) → l[i]? = some dp →
    dp.rows_to_add ≤ countSum l := by
  intro l
  induction l with
  | nil => intro i dp _ h; simp at h
  | cons a t ih =>
    intro i dp hnn h
    cases i with
    | zero =>
      simp at h
      subst h
      have : 0 ≤ countSum t := by
        unfold countSum
        apply List.sum_nonneg
        intro x hx
        obtain ⟨y, hy, rfl⟩ := List.mem_map.mp hx
        exact hnn y (List.mem_cons_of_mem _ hy)
      simp [countSum] at this ⊢
      omega
    | succ j =>
      simp at h
      have hd := hnn a (List.mem_cons_self a t)
      have := ih j dp (fun y hy => hnn y (List.mem_cons_of_mem _ hy)) h
      simp [countSum] at this ⊢
      omega

theorem pair_le_countSum (l : List DataPoint) (i j : Nat) (dp dq : DataPoint)
    (hnn : ∀ y ∈ l, 0 ≤ y.rows_to_add) (hij : i ≠ j)
    (hi : l[i]? = some dp) (hj : l[j]? = some dq) :
    dp.rows_to_add + dq.rows_to_add ≤ countSum l := by
  have hset := countSum_set l i dp { dp with rows_to_add := 0 } hi
  have hj' : (l.set i { dp with rows_to_add := 0 })[j]? = some dq := by
    rw [List.getElem?_set_ne hij]
    exact hj
  have hnn' : ∀ y ∈ l.set i { dp with rows_to_add := 0 }, 0 ≤ y.rows_to_add := by
    intro y hy
    rcases List.mem_or_eq_of_mem_set hy with hmem | rfl
    · exact hnn y hmem
    · simp
  have := elem_le_countSum _ j dq hnn' hj'
  simp at hset
  omega

theorem natSum_set :
    ∀ (l : List Nat) (i : Nat) (v x : Nat), l[i]? = some v →
    (l.set i x).sum + v = l.sum + x := by
  intro l
  induction l with
  | nil => intro i v x h; simp at h
  | cons a t ih =>
    intro i v x h
    cases i with
    | zero => simp at h; subst h; simp [List.set]; omega
    | succ j =>
      simp at h
      have := ih j v x h
      simp [List.set]
      omega

theorem natElem_le_sum :
    ∀ (l : List Nat) (i : Nat) (v : Nat), l[i]? = some v → v ≤ l.sum := by
  intro l
  induction l with
  | nil => intro i v h; simp at h
  | cons a t ih =>
    intro i v h
    cases i with
    | zero => simp at h; subst h; simp
    | succ j =>
      simp at h
      have := ih j v h
      simp
      omega

theorem natMem_le_sum (l : List Nat) (v : Nat) (h : v ∈ l) : v ≤ l.sum := by
  induction l with
  | nil => simp at h
  | cons a t ih =>
    rcases List.mem_cons.mp h with rfl | hm
    · simp
    · have := ih hm; simp; omega

/-- Replacing an element with one carrying the same timestamp leaves the
timestamp sequence untouched. -/
theorem map_timestamp_set :
    ∀ (l : List DataPoint) (i : Nat) (dp : DataPoint) (r : Int),
    l[i]? = some dp →
    (l.set i { dp with rows_to_add := r }).map (fun x => x.timestamp) =
      l.map (fun x => x.timestamp) := by
  intro l
  induction l with
  | nil => intro i dp r h; simp at h
  | cons a t ih =>
    intro i dp r h
    cases i with
    | zero => simp at h; subst h; simp [List.set]
    | succ j =>
      simp at h
      have := ih j dp r h
      simp [List.set, this]

/-- Replacing a `DataZone` with one differing only in its allocation leaves
the span sequence untouched. -/
theorem map_span_set :
    ∀ (l : List DataZone) (i : Nat) (z : DataZone) (a : Nat),
    l[i]? = some z →
    (l.set i { z with num_rows_to_add := a }).map
        (fun x => (x.start_time, x.end_time)) =
      l.map (fun x => (x.start_time, x.end_time)) := by
  intro l
  induction l with
  | nil => intro i z a h; simp at h
  | cons b t ih =>
    intro i z a h
    cases i with
    | zero => simp at h; subst h; simp [List.set]
    | succ j =>
      simp at h
      have := ih j z a h
      simp [List.set, this]

/-- `wrap16` is the identity on the `i16` value range. -/
theorem wrap16_eq_self {x : Int} (h1 : -32768 ≤ x) (h2 : x ≤ 32767) :
    wrap16 x = x := by
  unfold wrap16
  omega

/-- `wrap16` never exceeds a nonnegative argument. -/
theorem wrap16_le_self {x : Int} (h : 0 ≤ x) : wrap16 x ≤ x := by
  unfold wrap16
  omega

/-! The delta-transfer core shared by both datapoint perturbation loops. -/

/-- Moving a delta `d ∈ [1, source)` between two distinct slots of a
nonnegative state whose total is at most `32767` stays inside the `i16`
value range, preserves the total, keeps every count nonnegative and leaves
all timestamps untouched. -/
theorem transfer_preserves (l : List DataPoint) (i j : Nat) (d : Int)
    (dp dq : DataPoint) (hi : l[i]? = some dp) (hij : i ≠ j)
    (hd1 : 1 ≤ d) (hd2 : d < dp.rows_to_add)
    (hq : (l.set i { dp with rows_to_add := i16sub dp.rows_to_add d })[j]? =
      some dq)
    (hnn : ∀ x ∈ l, 0 ≤ x.rows_to_add) (hsum : countSum l ≤ 32767) :
    countSum ((l.set i { dp with rows_to_add := i16sub dp.rows_to_add d }).set j
        { dq with rows_to_add := i16add dq.rows_to_add d }) = countSum l ∧
    (∀ x ∈ (l.set i { dp with rows_to_add := i16sub dp.rows_to_add d }).set j
        { dq with rows_to_add := i16add dq.rows_to_add d },
      0 ≤ x.rows_to_add) ∧
    ((l.set i { dp with rows_to_add := i16sub dp.rows_to_add d }).set j
        { dq with rows_to_add := i16add dq.rows_to_add d }).map
      (fun x => x.timestamp) = l.map (fun x => x.timestamp) := by
  have hj : l[j]? = some dq := by
    rw [List.getElem?_set_ne hij] at hq
    exact hq
  have hdple : dp.rows_to_add ≤ countSum l := elem_le_countSum l i dp hnn hi
  have hpair : dp.rows_to_add + dq.rows_to_add ≤ countSum l :=
    pair_le_countSum l i j dp dq hnn hij hi hj
  have hdqnn : 0 ≤ dq.rows_to_add := by
    have : dq ∈ l := List.getElem?_mem hj
    exact hnn dq this
  have hsub : i16sub dp.rows_to_add d = dp.rows_to_add - d := by
    unfold i16sub
    exact wrap16_eq_self (by omega) (by omega)
  have hadd : i16add dq.rows_to_add d = dq.rows_to_add + d := by
    unfold i16add
    exact wrap16_eq_self (by omega) (by omega)
  have hs1 := countSum_set l i dp
    { dp with rows_to_add := i16sub dp.rows_to_add d } hi
  have hs2 := countSum_set _ j dq
    { dq with rows_to_add := i16add dq.rows_to_add d } hq
  refine ⟨?_, ?_, ?_⟩
  · simp only at hs1 hs2
    rw [hs2, hs1, hsub, hadd]
    ring
  · intro x hx
    rcases List.mem_or_eq_of_mem_set hx with hx1 | rfl
    · rcases List.mem_or_eq_of_mem_set hx1 with hx2 | rfl
      · exact hnn x hx2
      · simp only
        omega
    · simp only
      omega
  · rw [map_timestamp_set _ j dq _ hq, map_timestamp_set l i dp _ hi]

/-- One successful even-distributor perturbation step preserves the total,
nonnegativity and the timestamps, provided the state is nonnegative with
total at most `32767`. -/
theorem even_shuffle_step_inv {g : Nat → Nat} {fuel : Nat} {dur : Int}
    {st st' : List DataPoint × Nat}
    (hnn : ∀ x ∈ st.1, 0 ≤ x.rows_to_add) (hsum : countSum st.1 ≤ 32767)
    (h : even_shuffle_step g fuel dur st = .ok st') :
    countSum st'.1 = countSum st.1 ∧ (∀ x ∈ st'.1, 0 ≤ x.rows_to_add) ∧
    st'.1.map (fun x => x.timestamp) = st.1.map (fun x => x.timestamp) := by
  unfold even_shuffle_step at h
  cases hp : pick_2_random_datapoint g st.2 fuel dur with
  | error e => rw [hp] at h; cases h
  | ok q =>
    rw [hp] at h
    obtain ⟨⟨a, b⟩, k⟩ := q
    dsimp only at h
    cases hget : st.1[a.toNat]? with
    | none => rw [hget] at h; cases h
    | some dp =>
      rw [hget] at h
      dsimp only at h
      by_cases hone : dp.rows_to_add = 1
      · rw [if_pos hone] at h
        cases h
        exact ⟨rfl, hnn, rfl⟩
      · rw [if_neg hone] at h
        cases hr : rrange g k 1 dp.rows_to_add with
        | error e => rw [hr] at h; cases h
        | ok p =>
          rw [hr] at h
          obtain ⟨delta, k'⟩ := p
          dsimp only at h
          cases hget2 : (st.1.set a.toNat
              { dp with rows_to_add := i16sub dp.rows_to_add delta })[b.toNat]? with
          | none => rw [hget2] at h; cases h
          | some dq =>
            rw [hget2] at h
            cases h
            have hb := pick2_bounds hp
            have hij : a.toNat ≠ b.toNat := by
              intro hEq
              apply hb.2.2.2.2
              omega
            have hd := rrange_bounds hr
            exact transfer_preserves st.1 a.toNat b.toNat delta dp dq hget hij
              hd.1 hd.2.1 hget2 hnn hsum

/-- One successful in-zone perturbation step preserves the total,
nonnegativity and the timestamps, provided the state is nonnegative with
total at most `32767`. -/
theorem zone_datapoints_shuffle_step_inv {g : Nat → Nat} {fuel : Nat}
    {st st' : List DataPoint × Nat}
    (hnn : ∀ x ∈ st.1, 0 ≤ x.rows_to_add) (hsum : countSum st.1 ≤ 32767)
    (h : zone_datapoints_shuffle_step g fuel st = .ok st') :
    countSum st'.1 = countSum st.1 ∧ (∀ x ∈ st'.1, 0 ≤ x.rows_to_add) ∧
    st'.1.map (fun x => x.timestamp) = st.1.map (fun x => x.timestamp) := by
  unfold zone_datapoints_shuffle_step at h
  cases hp : pick_2_random_datapoint g st.2 fuel (st.1.length : Int) with
  | error e => rw [hp] at h; cases h
  | ok q =>
    rw [hp] at h
    obtain ⟨⟨a, b⟩, k⟩ := q
    dsimp only at h
    cases hget : st.1[a.toNat]? with
    | none => rw [hget] at h; cases h
    | some dp =>
      rw [hget] at h
      dsimp only at h
      by_cases hsmall : dp.rows_to_add < 2
      · rw [if_pos hsmall] at h
        cases h
        exact ⟨rfl, hnn, rfl⟩
      · rw [if_neg hsmall] at h
        cases hr : rrange g k 1 dp.rows_to_add with
        | error e => rw [hr] at h; cases h
        | ok p =>
          rw [hr] at h
          obtain ⟨delta, k'⟩ := p
          dsimp only at h
          cases hget2 : (st.1.set a.toNat
              { dp with rows_to_add := i16sub dp.rows_to_add delta })[b.toNat]? with
          | none => rw [hget2] at h; cases h
          | some dq =>
            rw [hget2] at h
            cases h
            have hb := pick2_bounds hp
            have hij : a.toNat ≠ b.toNat := by
              intro hEq
              apply hb.2.2.2.2
              omega
            have hd := rrange_bounds hr
            exact transfer_preserves st.1 a.toNat b.toNat delta dp dq hget hij
              hd.1 hd.2.1 hget2 hnn hsum

/-- One successful zone-allocation shuffle step preserves the allocation
total and the zone count (`u32` allocations, which never overflow because the
total is bounded by the `u32` target). -/
theorem zone_shuffle_step_inv {g : Nat → Nat} {fuel : Nat} {m : Nat}
    {st st' : List Nat × Nat}
    (h : zone_shuffle_step g fuel m st = .ok st') :
    st'.1.sum = st.1.sum ∧ st'.1.length = st.1.length := by
  unfold zone_shuffle_step at h
  cases hp : pick_2_random_datapoint g st.2 fuel (m : Int) with
  | error e => rw [hp] at h; cases h
  | ok q =>
    rw [hp] at h
    obtain ⟨⟨a, b⟩, k⟩ := q
    dsimp only at h
    cases hget : st.1[a.toNat]? with
    | none => rw [hget] at h; cases h
    | some ub =>
      rw [hget] at h
      dsimp only at h
      by_cases hsmall : ub < 2
      · rw [if_pos hsmall] at h
        cases h
        exact ⟨rfl, rfl⟩
      · rw [if_neg hsmall] at h
        cases hr : rrange g k 1 (ub : Int) with
        | error e => rw [hr] at h; cases h
        | ok p =>
          rw [hr] at h
          obtain ⟨delta, k'⟩ := p
          dsimp only at h
          cases hget2 : (st.1.set a.toNat (ub - delta.toNat))[b.toNat]? with
          | none => rw [hget2] at h; cases h
          | some v =>
            rw [hget2] at h
            cases h
            have hd := rrange_bounds hr
            have hdn : 1 ≤ delta.toNat ∧ delta.toNat < ub := by omega
            have hs1 := natSum_set st.1 a.toNat ub (ub - delta.toNat) hget
            have hs2 := natSum_set _ b.toNat v (v + delta.toNat) hget2
            constructor
            · dsimp only
              omega
            · rw [List.length_set, List.length_set]

/-! Characterizations of the three "first fill" loops. -/

theorem even_first_fill_char (start dur : Int) (target : Nat) (hd : 0 < dur) :
    even_first_fill start dur target =
      ((List.range (dur.toNat - 1)).map
        (fun (i : Nat) => ⟨start + (i : Int), wrap16 (Int.tdiv (target : Int) dur)⟩)) ++
      [⟨start + ((dur.toNat - 1 : Nat) : Int),
        i16sub (wrap16 (target : Int))
          (wrap16 (Int.tdiv (target : Int) dur * ((dur.toNat - 1 : Nat) : Int)))⟩] := by
  have hcast : ((dur.toNat : Int)) = dur := Int.toNat_of_nonneg (by omega)
  have hdN : 1 ≤ dur.toNat := by omega
  unfold even_first_fill
  set per := Int.tdiv (target : Int) dur with hper
  show (List.foldl
      (fun (st : List DataPoint × Int) (i : Nat) =>
        if (i : Int) ≠ dur - 1 then
          (st.1 ++ [⟨start + (i : Int), wrap16 per⟩], st.2 + per)
        else
          (st.1 ++ [⟨start + (i : Int),
                     i16sub (wrap16 (target : Int)) (wrap16 st.2)⟩], st.2))
      ([], 0) (List.range dur.toNat)).1 = _
  have aux : ∀ n, n ≤ dur.toNat - 1 →
      (List.range n).foldl
        (fun (st : List DataPoint × Int) (i : Nat) =>
          if (i : Int) ≠ dur - 1 then
            (st.1 ++ [⟨start + (i : Int), wrap16 per⟩], st.2 + per)
          else
            (st.1 ++ [⟨start + (i : Int),
                       i16sub (wrap16 (target : Int)) (wrap16 st.2)⟩], st.2))
        ([], 0) =
      ((List.range n).map (fun (i : Nat) => ⟨start + (i : Int), wrap16 per⟩),
        per * (n : Int)) := by
    intro n
    induction n with
    | zero => intro _; simp
    | succ m ih =>
      intro hm
      rw [List.range_succ, List.foldl_append, ih (by omega), List.map_append]
      have hcond : ((m : Int)) ≠ dur - 1 := by omega
      simp only [List.foldl_cons, List.foldl_nil, if_pos hcond, List.map_cons,
        List.map_nil]
      rw [Prod.mk.injEq]
      refine ⟨rfl, ?_⟩
      push_cast
      ring
  have hsplit : List.range dur.toNat =
      List.range (dur.toNat - 1) ++ [dur.toNat - 1] := by
    have h2 : dur.toNat = (dur.toNat - 1) + 1 := by omega
    conv_lhs => rw [h2, List.range_succ]
  rw [hsplit, List.foldl_append, aux (dur.toNat - 1) le_rfl]
  have hcond : ¬(((dur.toNat - 1 : Nat) : Int) ≠ dur - 1) := by omega
  simp only [List.foldl_cons, List.foldl_nil, if_neg hcond]

theorem zone_first_fill_char (num_of_zone num_entries ceiling : Nat)
    (hz : 1 ≤ num_of_zone) :
    zone_first_fill num_of_zone num_entries ceiling =
      ((List.range (num_of_zone - 1)).map (fun _ => ceiling)) ++
      [num_entries - ceiling * (num_of_zone - 1)] := by
  unfold zone_first_fill
  have aux : ∀ n, n ≤ num_of_zone - 1 →
      (List.range n).foldl
        (fun (st : List Nat × Nat) (i : Nat) =>
          if i = num_of_zone - 1 then (st.1 ++ [num_entries - st.2], st.2)
          else (st.1 ++ [ceiling], st.2 + ceiling))
        ([], 0) =
      ((List.range n).map (fun _ => ceiling), ceiling * n) := by
    intro n
    induction n with
    | zero => intro _; simp
    | succ m ih =>
      intro hm
      rw [List.range_succ, List.foldl_append, ih (by omega), List.map_append]
      have hcond : m ≠ num_of_zone - 1 := by omega
      simp only [List.foldl_cons, List.foldl_nil, if_neg hcond, List.map_cons,
        List.map_nil]
      rw [Prod.mk.injEq]
      refine ⟨rfl, ?_⟩
      ring
  have hsplit : List.range num_of_zone =
      List.range (num_of_zone - 1) ++ [num_of_zone - 1] := by
    have h2 : num_of_zone = (num_of_zone - 1) + 1 := by omega
    conv_lhs => rw [h2, List.range_succ]
  rw [hsplit, List.foldl_append, aux (num_of_zone - 1) le_rfl]
  simp only [List.foldl_cons, List.foldl_nil, eq_self_iff_true, if_true]

theorem zone_datapoints_first_fill_char (data_zone : DataZone) (durN per : Nat)
    (hd : 1 ≤ durN) (hbound : per * (durN - 1) ≤ data_zone.num_rows_to_add)
    (hnum : data_zone.num_rows_to_add < 4294967296) :
    zone_datapoints_first_fill data_zone durN per =
      ((List.range (durN - 1)).map
        (fun (i : Nat) => ⟨data_zone.start_time + (i : Int), wrap16 (per : Int)⟩)) ++
      [⟨data_zone.start_time + ((durN - 1 : Nat) : Int),
        wrap16 ((data_zone.num_rows_to_add - per * (durN - 1) : Nat) : Int)⟩] := by
  unfold zone_datapoints_first_fill
  have aux : ∀ n, n ≤ durN - 1 →
      (List.range n).foldl
        (fun (st : List DataPoint × Nat × Nat) (i : Nat) =>
          let rows := if i = durN - 1 then
              u32wrapSub data_zone.num_rows_to_add st.2.2
            else st.2.1
          (st.1 ++ [⟨data_zone.start_time + (i : Int), wrap16 (rows : Int)⟩],
           rows, (st.2.2 + rows) % 4294967296))
        ([], per, 0) =
      ((List.range n).map
        (fun (i : Nat) => ⟨data_zone.start_time + (i : Int), wrap16 (per : Int)⟩),
        per, per * n) := by
    intro n
    induction n with
    | zero => intro _; simp
    | succ m ih =>
      intro hm
      rw [List.range_succ, List.foldl_append, ih (by omega), List.map_append]
      have hcond : m ≠ durN - 1 := by omega
      have hmod : (per * m + per) % 4294967296 = per * m + per := by
        apply Nat.mod_eq_of_lt
        have h1 : per * m + per = per * (m + 1) := by ring
        have h2 : per * (m + 1) ≤ per * (durN - 1) := by
          apply Nat.mul_le_mul_left
          omega
        omega
      simp only [List.foldl_cons, List.foldl_nil, if_neg hcond, List.map_cons,
        List.map_nil]
      refine Prod.ext rfl (Prod.ext rfl ?_)
      simp only
      rw [hmod]
      ring
  have hsplit : List.range durN = List.range (durN - 1) ++ [durN - 1] := by
    have h2 : durN = (durN - 1) + 1 := by omega
    conv_lhs => rw [h2, List.range_succ]
  rw [hsplit, List.foldl_append, aux (durN - 1) le_rfl]
  have hsub : u32wrapSub data_zone.num_rows_to_add (per * (durN - 1)) =
      data_zone.num_rows_to_add - per * (durN - 1) := by
    unfold u32wrapSub
    omega
  simp only [List.foldl_cons, List.foldl_nil, eq_self_iff_true, if_true, hsub]

/-- Sum of the rows of a constant-count segment. -/
theorem countSum_const_map (m : Nat) (start : Int) (c : Int) :
    countSum ((List.range m).map (fun (i : Nat) => ⟨start + (i : Int), c⟩)) =
      (m : Int) * c := by
  induction m with
  | zero => simp [countSum]
  | succ n ih =>
    rw [List.range_succ, List.map_append]
    rw [countSum_append, ih]
    simp [countSum]
    ring

/-! Claim C9 and C10: the duration parser. -/

/-- Claim C10: any duration value the splitter extracts is nonnegative — the
numeric prefix is cut at the first non-ASCII-digit character, so a minus sign
can never be part of it. -/
theorem parse_time_duration_value_nonneg :
    ∀ (s : List Char) (n : Int) (u : List Char),
    parse_time_duration_value_and_unit s = some (n, u) → 0 ≤ n := by
  intro s n u h
  unfold parse_time_duration_value_and_unit at h
  split at h
  · cases h
  · dsimp only at h
    cases hp : parseI64digits (s.takeWhile isAsciiDigit) with
    | none => rw [hp] at h; cases h
    | some v =>
      rw [hp] at h
      dsimp only at h
      cases h
      unfold parseI64digits at hp
      split at hp
      · cases hp
      · split at hp
        · cases hp
          positivity
        · cases hp

/-- Claim C10 witness: the theorem applied to the concrete input `"10m"`. -/
theorem parse_time_duration_value_nonneg_witness :
    parse_time_duration_value_and_unit "10m".toList = some (10, "m".toList) ∧
    (0 : Int) ≤ 10 :=
  ⟨by decide, parse_time_duration_value_nonneg "10m".toList 10 "m".toList
    (by decide)⟩

/-! Claim C5: the dispatcher performs no duration validation. -/

/-- Claim C5 counterexample: a configuration with the unsupported duration
unit `"10x"` parses to a zero duration, reaches the even distributor through
the dispatcher with no validation, and panics on the division by zero — so
the dispatcher does not validate `duration_in_seconds > 0`. -/
theorem dispatcher_no_validation_counterexample :
    generate_datapoints (fun j => j) 0 10 0 "even".toList "10x".toList 4 =
      .error .panicked := by decide

/-- Claim C5 (amended): the dispatcher validates nothing; whenever the
duration string parses to zero seconds, dispatching to the even distributor
divides by zero and panics, for every target and every random outcome. -/
theorem dispatcher_zero_duration_panics (g : Nat → Nat) (k fuel : Nat)
    (start : Int) (s : List Char) (target : Nat)
    (h : parse_time_duration s = .ok 0) :
    generate_datapoints g k fuel start "even".toList s target =
      .error .panicked := by
  unfold generate_datapoints
  rw [h]
  have hmodel : ("even".toList.map asciiToLower) = "even".toList := by decide
  dsimp only
  rw [hmodel]
  rw [if_pos rfl]
  unfold generate_datapoints_even
  rw [if_pos rfl]

/-- Claim C5 witness: the amended theorem applied to the duration string
`"0s"`, which parses to a zero duration. -/
theorem dispatcher_zero_duration_panics_witness :
    generate_datapoints (fun j => j) 0 10 0 "even".toList "0s".toList 7 =
      .error .panicked :=
  dispatcher_zero_duration_panics (fun j => j) 0 10 0 "0s".toList 7 (by decide)

/-! Claim C6: the early-fill per-slot draw range. -/

/-- Claim C6 counterexample: for target 50 the computed logical ceiling
`(50 as f32 * 0.01) as u32` is 0, there is no minimum-1 adjustment, so the
very first draw is from the empty range `[1, 0]` and the distributor panics
instead of always succeeding. -/
theorem early_fill_empty_range_counterexample :
    logicalCeiling 50 = 0 ∧
    generate_datapoints_early_fill (fun j => j) 0 0 10 50 =
      .error .panicked := by
  exact ⟨by decide, by decide⟩

/-- Claim C6 (amended): the early-fill per-slot count is drawn from
`[1, trunc(target as f32 * 0.01)]` with no minimum-1 adjustment of the
ceiling: when the computed ceiling is 0 and the window is nonempty the first
draw's range is empty and the distributor panics; when the ceiling is at
least 1 every draw succeeds (the whole run never fails) and each successful
draw lies in `[1, ceiling]`. -/
theorem early_fill_ceiling_behavior :
    (∀ (g : Nat → Nat) (k : Nat) (start dur : Int) (target : Nat),
      logicalCeiling target = 0 → 0 < dur →
      generate_datapoints_early_fill g k start dur target =
        .error .panicked) ∧
    (∀ (g : Nat → Nat) (k : Nat) (c : Nat) (v : Int) (k' : Nat),
      rrange g k 1 ((c : Int) + 1) = .ok (v, k') → 1 ≤ v ∧ v ≤ (c : Int)) ∧
    (∀ (g : Nat → Nat) (k : Nat) (start dur : Int) (target : Nat),
      1 ≤ logicalCeiling target →
      (generate_datapoints_early_fill g k start dur target).isOk = true) := by
  refine ⟨?_, ?_, ?_⟩
  · intro g k start dur target hc hdur
    unfold generate_datapoints_early_fill
    obtain ⟨m, hm⟩ : ∃ m, dur.toNat = m + 1 := ⟨dur.toNat - 1, by omega⟩
    rw [hm, List.range_succ_eq_map]
    unfold early_fill_loop
    rw [hc]
    have : ¬((1 : Int) < (0 : Nat) + 1) := by omega
    unfold rrange
    rw [if_neg this]
  · intro g k c v k' h
    have := rrange_bounds h
    omega
  · intro g k start dur target hc
    suffices hloop : ∀ (idxs : List Nat) (pts : List DataPoint) (sum k0 : Nat),
        (early_fill_loop g start target (logicalCeiling target) idxs
          (pts, sum, k0)).isOk = true by
      unfold generate_datapoints_early_fill
      cases hres : early_fill_loop g start target (logicalCeiling target)
          (List.range dur.toNat) ([], 0, k) with
      | error e =>
        have := hloop (List.range dur.toNat) [] 0 k
        rw [hres] at this
        cases this
      | ok p => rfl
    intro idxs
    induction idxs with
    | nil => intro pts sum k0; rfl
    | cons i rest ih =>
      intro pts sum k0
      unfold early_fill_loop
      have hlt : (1 : Int) < (logicalCeiling target : Int) + 1 := by
        omega
      rw [rrange_ok_of_lt hlt]
      dsimp only
      split
      · rw [if_pos rfl]
        rfl
      · split
        · rfl
        · exact ih _ _ _

/-- Claim C6 witness: the amended theorem applied at target 100 (ceiling 1,
run always succeeds) and target 99 (ceiling 0, empty range, panic). -/
theorem early_fill_ceiling_behavior_witness :
    (generate_datapoints_early_fill (fun j => j) 0 0 3 100).isOk = true ∧
    generate_datapoints_early_fill (fun j => j) 0 0 5 99 = .error .panicked :=
  ⟨early_fill_ceiling_behavior.2.2 (fun j => j) 0 0 3 100 (by decide),
   early_fill_ceiling_behavior.1 (fun j => j) 0 0 5 99 (by decide) (by decide)⟩

/-! Claim C7: occupied zones with spans shorter than 2 seconds. -/

/-- Over a single slot the `pick_2_random_datapoint` retry loop can never
find a distinct second index: it exhausts any fuel (the source loops
forever). -/
theorem pick2Second_one (g : Nat → Nat) : ∀ (fuel k : Nat),
    pick2Second g 1 0 fuel k = .error .fuelOut := by
  intro fuel
  induction fuel with
  | zero => intro k; rfl
  | succ m ih =>
    intro k
    unfold pick2Second
    rw [rrange_ok_of_lt (by omega : (0 : Int) < 1)]
    simp only [Int.sub_zero, Int.emod_one, Int.add_zero, ne_eq,
      not_true_eq_false, if_false, ite_false]
    exact ih (k + 1)

/-- `pick_2_random_datapoint` over a single slot never terminates (modelled:
exhausts any fuel). -/
theorem pick_2_one (g : Nat → Nat) (k fuel : Nat) :
    pick_2_random_datapoint g k fuel 1 = .error .fuelOut := by
  unfold pick_2_random_datapoint
  rw [rrange_ok_of_lt (by omega : (0 : Int) < 1)]
  dsimp only
  have h0 : (0 : Int) + (g k : Int) % (1 - 0) = 0 := by
    simp [Int.emod_one]
  rw [h0, pick2Second_one g fuel (k + 1)]

/-- An error on the first step is an error of the whole perturbation loop. -/
theorem exFold_err_first {α : Type} {f : α → Except Err α} {a : α} {e : Err}
    {n : Nat} (h : f a = .error e) : exFold f (n + 1) a = .error e := by
  unfold exFold
  rw [h]

/-- Claim C7 counterexample: an occupied zone whose inclusive span is a
single second (`end_time = start_time`, allocation 5) makes the per-zone
sub-fill divide by zero — it panics rather than completing without
failure. -/
theorem zone_sub_fill_counterexample :
    generate_sparse_fill_zone_datapoints (fun j => j) 0 10
      ⟨0, 0, 5⟩ = .error .panicked := by decide

/-- Claim C7 (amended): the per-zone sub-fill does not degenerate
gracefully on short spans.  For an occupied zone of zero duration
(`end_time = start_time`) the division `num_rows_to_add / (duration as u32)`
panics with division by zero; for an occupied zone of duration 1 the first
fill does degenerate to a single slot carrying the whole allocation, but the
perturbation pass then runs `duration * 3 > 0` iterations over one slot and
its pair picker never terminates (it exhausts any fuel). -/
theorem zone_sub_fill_not_graceful :
    (∀ (g : Nat → Nat) (k fuel : Nat) (z : DataZone),
      z.end_time = z.start_time → 0 < z.num_rows_to_add →
      generate_sparse_fill_zone_datapoints g k fuel z = .error .panicked) ∧
    (∀ (g : Nat → Nat) (k fuel : Nat) (z : DataZone),
      z.end_time = z.start_time + 1 → 0 < z.num_rows_to_add →
      z.num_rows_to_add ≤ 32767 →
      zone_datapoints_first_fill z 1 (z.num_rows_to_add / u32cast 1) =
        [⟨z.start_time, (z.num_rows_to_add : Int)⟩] ∧
      generate_sparse_fill_zone_datapoints g k fuel z = .error .fuelOut) := by
  constructor
  · intro g k fuel z hz hn
    unfold generate_sparse_fill_zone_datapoints
    rw [hz]
    simp [u32cast]
  · intro g k fuel z hz hn hle
    have hcast : u32cast 1 = 1 := by decide
    have hfill : zone_datapoints_first_fill z 1
        (z.num_rows_to_add / u32cast 1) =
        [⟨z.start_time, (z.num_rows_to_add : Int)⟩] := by
      rw [zone_datapoints_first_fill_char z 1 _ le_rfl (by simp) (by omega)]
      simp only [Nat.sub_self, List.range_zero, List.map_nil, Nat.mul_zero,
        Nat.sub_zero, List.nil_append, Nat.cast_zero, Int.add_zero,
        Nat.cast_ofNat]
      rw [wrap16_eq_self (by omega) (by omega)]
    refine ⟨hfill, ?_⟩
    unfold generate_sparse_fill_zone_datapoints
    rw [hz]
    have hdur : z.start_time + 1 - z.start_time = (1 : Int) := by ring
    rw [hdur]
    rw [if_neg (by decide : ¬(u32cast 1 = 0))]
    have htoNat : ((1 : Int) * 3).toNat = 2 + 1 := by decide
    have hone : (1 : Int).toNat = 1 := by decide
    rw [htoNat, hone]
    dsimp only
    rw [hfill]
    apply exFold_err_first
    unfold zone_datapoints_shuffle_step
    have hlen : (([⟨z.start_time, (z.num_rows_to_add : Int)⟩] :
        List DataPoint).length : Int) = 1 := by simp
    rw [hlen, pick_2_one g k fuel]

/-- Claim C7 witness: the amended theorem applied to the concrete occupied
duration-1 zone `⟨0, 1, 5⟩`. -/
theorem zone_sub_fill_not_graceful_witness :
    zone_datapoints_first_fill ⟨0, 1, 5⟩ 1 (5 / u32cast 1) = [⟨0, 5⟩] ∧
    generate_sparse_fill_zone_datapoints (fun j => j) 0 7 ⟨0, 1, 5⟩ =
      .error .fuelOut :=
  zone_sub_fill_not_graceful.2 (fun j => j) 0 7 ⟨0, 1, 5⟩ rfl (by decide)
    (by decide)

/-! Claim C3: early-fill conservation. -/

theorem countSum_singleton (dp : DataPoint) : countSum [dp] = dp.rows_to_add := by
  simp [countSum]

/-- On any successful early-fill run whose `u32` running sum cannot wrap
(`target + ceiling < 2^32`), the emitted rows never total more than the
target and the output never exceeds the remaining slots. -/
theorem early_fill_loop_bound (g : Nat → Nat) (start : Int) (target c : Nat)
    (hnw : target + c < 4294967296) :
    ∀ (idxs : List Nat) (pts : List DataPoint) (sum k : Nat)
      (l : List DataPoint) (k' : Nat),
    early_fill_loop g start target c idxs (pts, sum, k) = .ok (l, k') →
    sum ≤ target → countSum pts ≤ (sum : Int) →
    countSum l ≤ (target : Int) ∧ l.length ≤ pts.length + idxs.length := by
  intro idxs
  induction idxs with
  | nil =>
    intro pts sum k l k' h hs hc
    cases h
    refine ⟨le_trans hc (by exact_mod_cast hs), by simp⟩
  | cons i rest ih =>
    intro pts sum k l k' h hs hc
    unfold early_fill_loop at h
    cases hr : rrange g k 1 ((c : Int) + 1) with
    | error e => rw [hr] at h; cases h
    | ok p =>
      rw [hr] at h
      obtain ⟨d, k1⟩ := p
      dsimp only at h
      have hd := rrange_bounds hr
      have hd1 : 1 ≤ d.toNat := by omega
      have hdc : d.toNat ≤ c := by omega
      have hmod : (sum + d.toNat) % 4294967296 = sum + d.toNat :=
        Nat.mod_eq_of_lt (by omega)
      rw [hmod] at h
      by_cases hcl : target < sum + d.toNat
      · rw [if_pos hcl] at h
        dsimp only at h
        rw [if_pos rfl] at h
        cases h
        constructor
        · rw [countSum_append, countSum_singleton]
          dsimp only
          have hw : wrap16 ((target - sum : Nat) : Int) ≤
              ((target - sum : Nat) : Int) :=
            wrap16_le_self (by positivity)
          have hcast : ((target - sum : Nat) : Int) =
              (target : Int) - (sum : Int) := by omega
          omega
        · simp only [List.length_append, List.length_singleton,
            List.length_cons, List.length_nil]
          omega
      · rw [if_neg hcl] at h
        dsimp only at h
        have hw : wrap16 ((d.toNat : Nat) : Int) ≤ ((d.toNat : Nat) : Int) :=
          wrap16_le_self (by positivity)
        have hsum' : countSum (pts ++
            [⟨start + (i : Int), wrap16 ((d.toNat : Nat) : Int)⟩]) ≤
            ((sum + d.toNat : Nat) : Int) := by
          rw [countSum_append, countSum_singleton]
          dsimp only
          push_cast
          omega
        by_cases hbr : sum + d.toNat = target
        · rw [if_pos hbr] at h
          cases h
          constructor
          · rw [← hbr]
            exact hsum'
          · simp only [List.length_append, List.length_singleton,
              List.length_cons, List.length_nil]
            omega
        · rw [if_neg hbr] at h
          have := ih _ _ _ _ _ h (by omega) hsum'
          constructor
          · exact this.1
          · have hlen := this.2
            simp only [List.length_append, List.length_singleton,
              List.length_cons, List.length_nil] at hlen ⊢
            omega

/-- When the ceiling is in `[1, 32767]` and the window can hold the target,
a successful early-fill run's rows total exactly the target. -/
theorem early_fill_loop_exact (g : Nat → Nat) (start : Int) (target c : Nat)
    (hc1 : 1 ≤ c) (hc2 : c ≤ 32767) (hnw : target + c < 4294967296) :
    ∀ (idxs : List Nat) (pts : List DataPoint) (sum k : Nat)
      (l : List DataPoint) (k' : Nat),
    early_fill_loop g start target c idxs (pts, sum, k) = .ok (l, k') →
    sum ≤ target → countSum pts = (sum : Int) →
    target ≤ sum + idxs.length →
    countSum l = (target : Int) := by
  intro idxs
  induction idxs with
  | nil =>
    intro pts sum k l k' h hs hc hrem
    cases h
    simp only [List.length_nil, Nat.add_zero] at hrem
    have heq : sum = target := by omega
    rw [hc, heq]
  | cons i rest ih =>
    intro pts sum k l k' h hs hc hrem
    unfold early_fill_loop at h
    cases hr : rrange g k 1 ((c : Int) + 1) with
    | error e => rw [hr] at h; cases h
    | ok p =>
      rw [hr] at h
      obtain ⟨d, k1⟩ := p
      dsimp only at h
      have hd := rrange_bounds hr
      have hd1 : 1 ≤ d.toNat := by omega
      have hdc : d.toNat ≤ c := by omega
      have hmod : (sum + d.toNat) % 4294967296 = sum + d.toNat :=
        Nat.mod_eq_of_lt (by omega)
      rw [hmod] at h
      by_cases hcl : target < sum + d.toNat
      · rw [if_pos hcl] at h
        dsimp only at h
        rw [if_pos rfl] at h
        cases h
        rw [countSum_append, countSum_singleton]
        dsimp only
        have hw : wrap16 ((target - sum : Nat) : Int) =
            ((target - sum : Nat) : Int) :=
          wrap16_eq_self (by omega) (by omega)
        rw [hw, hc]
        omega
      · rw [if_neg hcl] at h
        dsimp only at h
        have hw : wrap16 ((d.toNat : Nat) : Int) = ((d.toNat : Nat) : Int) :=
          wrap16_eq_self (by omega) (by omega)
        have hsum' : countSum (pts ++
            [⟨start + (i : Int), wrap16 ((d.toNat : Nat) : Int)⟩]) =
            ((sum + d.toNat : Nat) : Int) := by
          rw [countSum_append, countSum_singleton]
          dsimp only
          rw [hw, hc]
          push_cast
          ring
        by_cases hbr : sum + d.toNat = target
        · rw [if_pos hbr] at h
          cases h
          rw [hsum', hbr]
        · rw [if_neg hbr] at h
          refine ih _ _ _ _ _ h (by omega) hsum' ?_
          simp at hrem ⊢
          omega

/-- Claim C3 counterexample: with target 10000 and a 5-second window the
early-fill run completes normally but its counts total only 5, not the
target — the clamp cannot create budget the window never reaches. -/
theorem early_fill_sum_shortfall_counterexample :
    generate_datapoints_early_fill (fun _ => 0) 0 0 5 10000 =
      .ok [⟨0, 1⟩, ⟨1, 1⟩, ⟨2, 1⟩, ⟨3, 1⟩, ⟨4, 1⟩] ∧
    countSum [⟨0, 1⟩, ⟨1, 1⟩, ⟨2, 1⟩, ⟨3, 1⟩, ⟨4, 1⟩] = 5 ∧
    (5 : Int) ≠ 10000 :=
  ⟨by decide, by decide, by decide⟩

/-- Claim C3 (amended): whenever the `u32` running sum cannot wrap
(`target + ceiling < 2^32`; near `u32::MAX` the clamp guard is dead code and
a completed release-mode run can overshoot), every successful early-fill run
emits at most `duration_in_seconds` DataPoints whose counts total at most the
target; the total equals the target exactly when the budget is reachable —
in particular whenever the logical ceiling lies in `[1, 32767]` and
`target ≤ duration_in_seconds` — but a window too short for the random draws
to exhaust the budget ends with a smaller total. -/
theorem early_fill_conservation :
    (∀ (g : Nat → Nat) (k : Nat) (start dur : Int) (target : Nat)
        (l : List DataPoint),
      target + logicalCeiling target < 4294967296 →
      generate_datapoints_early_fill g k start dur target = .ok l →
      l.length ≤ dur.toNat ∧ countSum l ≤ (target : Int)) ∧
    (∀ (g : Nat → Nat) (k : Nat) (start dur : Int) (target : Nat)
        (l : List DataPoint),
      1 ≤ logicalCeiling target → logicalCeiling target ≤ 32767 →
      target + logicalCeiling target < 4294967296 →
      (target : Int) ≤ dur →
      generate_datapoints_early_fill g k start dur target = .ok l →
      countSum l = (target : Int)) := by
  constructor
  · intro g k start dur target l hnw h
    unfold generate_datapoints_early_fill at h
    cases hres : early_fill_loop g start target (logicalCeiling target)
        (List.range dur.toNat) ([], 0, k) with
    | error e => rw [hres] at h; cases h
    | ok p =>
      rw [hres] at h
      obtain ⟨pts, k2⟩ := p
      cases h
      have := early_fill_loop_bound g start target (logicalCeiling target)
        hnw (List.range dur.toNat) [] 0 k l k2 hres (by omega)
        (by simp [countSum])
      refine ⟨?_, this.1⟩
      have hlen := this.2
      simp at hlen
      exact hlen
  · intro g k start dur target l hc1 hc2 hnw hdur h
    unfold generate_datapoints_early_fill at h
    cases hres : early_fill_loop g start target (logicalCeiling target)
        (List.range dur.toNat) ([], 0, k) with
    | error e => rw [hres] at h; cases h
    | ok p =>
      rw [hres] at h
      obtain ⟨pts, k2⟩ := p
      cases h
      refine early_fill_loop_exact g start target (logicalCeiling target)
        hc1 hc2 hnw (List.range dur.toNat) [] 0 k l k2 hres (by omega)
        (by simp [countSum]) ?_
      simp
      omega

/-- Claim C3 witness: the amended theorem's exactness part applied to the
concrete run with target 100 over a 100-second window (ceiling 1). -/
theorem early_fill_conservation_witness :
    ∃ l, generate_datapoints_early_fill (fun _ => 0) 0 0 100 100 = .ok l ∧
      countSum l = (100 : Int) := by
  refine ⟨_, rfl, ?_⟩
  exact early_fill_conservation.2 (fun _ => 0) 0 0 100 100 _ (by decide)
    (by decide) (by decide) (by decide) rfl

/-! Claims C1 and C4: the even distributor. -/

/-- `wrap16` is the identity on casts of naturals within the `i16` range. -/
theorem wrap16_coe_eq (n : Nat) (h : n ≤ 32767) :
    wrap16 (n : Int) = (n : Int) := by
  have h2 : ((n : Nat) : Int) ≤ 32767 := by exact_mod_cast h
  have h0 : (0 : Int) ≤ (n : Int) := Int.natCast_nonneg n
  unfold wrap16
  omega

/-- Rust `i64` division of a nonnegative numerator by a positive denominator
agrees with natural division. -/
theorem int_tdiv_coe (n : Nat) (d : Int) (hd : 0 < d) :
    Int.tdiv (n : Int) d = ((n / d.toNat : Nat) : Int) := by
  have hcast : ((d.toNat : Nat) : Int) = d := Int.toNat_of_nonneg (by omega)
  rw [← hcast]
  rfl

/-- For a target within the `i16` range, the even base fill sums exactly to
the target, is nonnegative throughout, and stamps one point per second. -/
theorem even_first_fill_props (start dur : Int) (target : Nat)
    (hd : 0 < dur) (ht : target ≤ 32767) :
    countSum (even_first_fill start dur target) = (target : Int) ∧
    (∀ dp ∈ even_first_fill start dur target, 0 ≤ dp.rows_to_add) ∧
    (even_first_fill start dur target).map (fun dp => dp.timestamp) =
      (List.range dur.toNat).map (fun (i : Nat) => start + (i : Int)) := by
  have hdN : 1 ≤ dur.toNat := by omega
  have htdiv := int_tdiv_coe target dur hd
  have hperle : target / dur.toNat ≤ target := Nat.div_le_self _ _
  have hmulle : target / dur.toNat * (dur.toNat - 1) ≤ target := by
    have h1 : target / dur.toNat * dur.toNat ≤ target :=
      Nat.div_mul_le_self _ _
    have h2 : target / dur.toNat * (dur.toNat - 1) ≤
        target / dur.toNat * dur.toNat :=
      Nat.mul_le_mul_left _ (by omega)
    omega
  have hA : ((target / dur.toNat * (dur.toNat - 1) : Nat) : Int) ≤
      (target : Int) := by exact_mod_cast hmulle
  have hB : ((target : Nat) : Int) ≤ 32767 := by exact_mod_cast ht
  have hC : (0 : Int) ≤ ((target / dur.toNat * (dur.toNat - 1) : Nat) : Int) :=
    Int.natCast_nonneg _
  have hwper : wrap16 ((target / dur.toNat : Nat) : Int) =
      ((target / dur.toNat : Nat) : Int) :=
    wrap16_coe_eq _ (le_trans hperle ht)
  have hwt : wrap16 ((target : Nat) : Int) = ((target : Nat) : Int) :=
    wrap16_coe_eq target ht
  have hcastmul : ((target / dur.toNat : Nat) : Int) *
      ((dur.toNat - 1 : Nat) : Int) =
      ((target / dur.toNat * (dur.toNat - 1) : Nat) : Int) := by
    push_cast
    ring
  have hwmul : wrap16 (((target / dur.toNat : Nat) : Int) *
      ((dur.toNat - 1 : Nat) : Int)) =
      ((target / dur.toNat * (dur.toNat - 1) : Nat) : Int) := by
    rw [hcastmul]
    exact wrap16_coe_eq _ (le_trans hmulle ht)
  have hlast : i16sub (wrap16 ((target : Nat) : Int))
      (wrap16 (((target / dur.toNat : Nat) : Int) *
        ((dur.toNat - 1 : Nat) : Int))) =
      (target : Int) - ((target / dur.toNat * (dur.toNat - 1) : Nat) : Int) := by
    rw [hwt, hwmul]
    unfold i16sub
    exact wrap16_eq_self (by omega) (by omega)
  rw [even_first_fill_char start dur target hd, htdiv]
  refine ⟨?_, ?_, ?_⟩
  · rw [countSum_append, countSum_singleton]
    dsimp only
    rw [hwper, countSum_const_map, hlast]
    have : ((dur.toNat - 1 : Nat) : Int) * ((target / dur.toNat : Nat) : Int) =
        ((target / dur.toNat * (dur.toNat - 1) : Nat) : Int) := by
      push_cast
      ring
    rw [this]
    ring
  · intro dp hdp
    rcases List.mem_append.mp hdp with hmem | hmem
    · obtain ⟨i, _, rfl⟩ := List.mem_map.mp hmem
      dsimp only
      rw [hwper]
      exact Int.natCast_nonneg _
    · rcases List.mem_singleton.mp hmem with rfl
      dsimp only
      rw [hlast]
      omega
  · rw [List.map_append, List.map_map]
    have hsplit : List.range dur.toNat =
        List.range (dur.toNat - 1) ++ [dur.toNat - 1] := by
      have h2 : dur.toNat = (dur.toNat - 1) + 1 := by omega
      conv_lhs => rw [h2, List.range_succ]
    rw [hsplit, List.map_append]
    rfl

/-- Claim C4 counterexample: with target 65535 over a 2-second window the
even base fill — the zero-perturbation intermediate state — already holds the
negative count `-32768` (the `i16` wrap of the 32768-row remainder), so
counts are not nonnegative at every intermediate state. -/
theorem even_first_fill_negative_counterexample :
    (even_first_fill 0 2 65535).map (fun dp => dp.rows_to_add) =
      [32767, -32768] ∧
    (⟨1, -32768⟩ : DataPoint) ∈ even_first_fill 0 2 65535 ∧
    ((-32768 : Int) < 0) :=
  ⟨by decide, by decide, by decide⟩

/-- Claim C4 (amended): provided the target fits the `i16` value range
(`target ≤ 32767`), every count is nonnegative at every intermediate and
final state: the even base fill starts nonnegative, and any number of
perturbation iterations of each of the three loops — even-fill slot
perturbation, sparse-fill zone shuffling (whose `u32` zone counts are
nonnegative by type) and sparse-fill per-zone shuffling — preserves
nonnegativity of every count (and the total) from any nonnegative state
whose total is at most 32767.  For targets above 32767 the base fill can
already wrap a count negative. -/
theorem perturbation_preserves_nonneg :
    (∀ (start dur : Int) (target : Nat), 0 < dur → target ≤ 32767 →
      ∀ dp ∈ even_first_fill start dur target, 0 ≤ dp.rows_to_add) ∧
    (∀ (g : Nat → Nat) (fuel : Nat) (dur : Int) (n : Nat)
        (st st' : List DataPoint × Nat),
      (∀ dp ∈ st.1, 0 ≤ dp.rows_to_add) → countSum st.1 ≤ 32767 →
      exFold (even_shuffle_step g fuel dur) n st = .ok st' →
      (∀ dp ∈ st'.1, 0 ≤ dp.rows_to_add) ∧ countSum st'.1 = countSum st.1) ∧
    (∀ (g : Nat → Nat) (fuel : Nat) (n : Nat)
        (st st' : List DataPoint × Nat),
      (∀ dp ∈ st.1, 0 ≤ dp.rows_to_add) → countSum st.1 ≤ 32767 →
      exFold (zone_datapoints_shuffle_step g fuel) n st = .ok st' →
      (∀ dp ∈ st'.1, 0 ≤ dp.rows_to_add) ∧ countSum st'.1 = countSum st.1) ∧
    (∀ (g : Nat → Nat) (fuel m n : Nat) (st st' : List Nat × Nat),
      exFold (zone_shuffle_step g fuel m) n st = .ok st' →
      st'.1.sum = st.1.sum ∧ ∀ a ∈ st'.1, 0 ≤ a) := by
  refine ⟨?_, ?_, ?_, ?_⟩
  · intro start dur target hd ht
    exact (even_first_fill_props start dur target hd ht).2.1
  · intro g fuel dur n st st' hnn hsum h
    have hinv := exFold_inv
      (P := fun a => (∀ dp ∈ a.1, 0 ≤ dp.rows_to_add) ∧
        countSum a.1 = countSum st.1)
      (fun a b hPa hab => by
        have hstep := even_shuffle_step_inv hPa.1 (by rw [hPa.2]; exact hsum)
          hab
        exact ⟨hstep.2.1, by rw [hstep.1, hPa.2]⟩)
      ⟨hnn, rfl⟩ h
    exact ⟨hinv.1, hinv.2⟩
  · intro g fuel n st st' hnn hsum h
    have hinv := exFold_inv
      (P := fun a => (∀ dp ∈ a.1, 0 ≤ dp.rows_to_add) ∧
        countSum a.1 = countSum st.1)
      (fun a b hPa hab => by
        have hstep := zone_datapoints_shuffle_step_inv hPa.1
          (by rw [hPa.2]; exact hsum) hab
        exact ⟨hstep.2.1, by rw [hstep.1, hPa.2]⟩)
      ⟨hnn, rfl⟩ h
    exact ⟨hinv.1, hinv.2⟩
  · intro g fuel m n st st' h
    have hinv := exFold_inv (P := fun a => a.1.sum = st.1.sum)
      (fun a b hPa hab => by
        have hstep := zone_shuffle_step_inv hab
        show b.1.sum = st.1.sum
        rw [hstep.1]
        exact hPa)
      rfl h
    exact ⟨hinv, fun a _ => Nat.zero_le a⟩

/-- Claim C4 witness: the amended theorem applied to the concrete base fill
`(0, 3, 10)` and to one concrete even-perturbation step from the state
`[3, 4]`. -/
theorem perturbation_preserves_nonneg_witness :
    (∀ dp ∈ even_first_fill 0 3 10, 0 ≤ dp.rows_to_add) ∧
    ((∀ dp ∈ ([⟨0, 2⟩, ⟨1, 5⟩] : List DataPoint), 0 ≤ dp.rows_to_add) ∧
      countSum [⟨0, 2⟩, ⟨1, 5⟩] =
        countSum ([⟨0, 3⟩, ⟨1, 4⟩] : List DataPoint)) :=
  ⟨perturbation_preserves_nonneg.1 0 3 10 (by decide) (by decide),
   perturbation_preserves_nonneg.2.1 (fun j => j % 2) 5 2 1
     ([⟨0, 3⟩, ⟨1, 4⟩], 0) ([⟨0, 2⟩, ⟨1, 5⟩], 3)
     (by decide) (by decide) (by decide)⟩

/-- Claim C1 counterexample: the even distributor does not return
`duration_in_seconds` DataPoints for every target — with target 5 over a
6-second window the perturbation pass can pick a zero-valued slot and panic
on the empty delta range `[1, 0)`, and with target 65536 over 2 seconds the
`i16`-wrapped base fill is negative everywhere so the first perturbation
iteration panics as well. -/
theorem generate_datapoints_even_counterexample :
    generate_datapoints_even (fun j => j % 2) 0 10 0 6 5 = .error .panicked ∧
    generate_datapoints_even (fun j => j % 2) 0 10 0 2 65536 =
      .error .panicked :=
  ⟨by decide, by decide⟩

/-- Claim C1 (amended): for targets within the `i16` value range
(`target ≤ 32767`) and positive durations, whenever the even distributor
completes without panicking it returns exactly `duration_in_seconds`
DataPoints, one per second starting at the start instant, whose counts sum to
exactly the target — for every random outcome and any number of perturbation
iterations.  Runs may instead panic (a zero-valued or wrapped-negative first
slot makes the delta range empty), and targets beyond `i16` can wrap. -/
theorem generate_datapoints_even_conserves (g : Nat → Nat) (k fuel : Nat)
    (start dur : Int) (target : Nat) (hd : 0 < dur) (ht : target ≤ 32767)
    (l : List DataPoint)
    (h : generate_datapoints_even g k fuel start dur target = .ok l) :
    l.length = dur.toNat ∧ countSum l = (target : Int) ∧
    l.map (fun dp => dp.timestamp) =
      (List.range dur.toNat).map (fun (i : Nat) => start + (i : Int)) := by
  unfold generate_datapoints_even at h
  rw [if_neg (by omega : ¬dur = 0)] at h
  cases hres : exFold (even_shuffle_step g fuel dur) (shuffleCount target)
      (even_first_fill start dur target, k) with
  | error e => rw [hres] at h; cases h
  | ok p =>
    rw [hres] at h
    obtain ⟨pts, k2⟩ := p
    cases h
    have hinit := even_first_fill_props start dur target hd ht
    have hinv := exFold_inv
      (P := fun a => countSum a.1 = (target : Int) ∧
        (∀ dp ∈ a.1, 0 ≤ dp.rows_to_add) ∧
        a.1.map (fun dp => dp.timestamp) =
          (List.range dur.toNat).map (fun (i : Nat) => start + (i : Int)))
      (fun a b hPa hab => by
        have hstep := even_shuffle_step_inv hPa.2.1
          (by rw [hPa.1]; exact_mod_cast ht) hab
        exact ⟨by rw [hstep.1, hPa.1], hstep.2.1, by rw [hstep.2.2, hPa.2.2]⟩)
      ⟨hinit.1, hinit.2.1, hinit.2.2⟩ hres
    refine ⟨?_, hinv.1, hinv.2.2⟩
    have := congrArg List.length hinv.2.2
    simp only [List.length_map, List.length_range] at this
    exact this

/-- Claim C1 witness: the amended theorem applied to the completed concrete
run with target 10 over a 3-second window. -/
theorem generate_datapoints_even_conserves_witness :
    generate_datapoints_even (fun j => j % 2) 0 10 0 3 10 =
      .ok [⟨0, 4⟩, ⟨1, 2⟩, ⟨2, 4⟩] ∧
    ([⟨0, 4⟩, ⟨1, 2⟩, ⟨2, 4⟩] : List DataPoint).length = (3 : Int).toNat ∧
    countSum [⟨0, 4⟩, ⟨1, 2⟩, ⟨2, 4⟩] = (10 : Int) := by
  have hrun : generate_datapoints_even (fun j => j % 2) 0 10 0 3 10 =
      .ok [⟨0, 4⟩, ⟨1, 2⟩, ⟨2, 4⟩] := by decide
  have := generate_datapoints_even_conserves (fun j => j % 2) 0 10 0 3 10
    (by decide) (by decide) _ hrun
  exact ⟨hrun, this.1, this.2.1⟩

/-! Claim C8: candidate-slot subdivision of the window. -/

/-- A list of inclusive integer spans chained left to right: the first span
starts at `A`, each span ends no earlier than one before its start (empty
spans allowed), each successive span starts right after its predecessor ends,
and the last span ends at `B`. -/
def chainSpans : List (Int × Int) → Int → Int → Prop
  | [], A, B => A = B + 1
  | p :: rest, A, B => p.1 = A ∧ A - 1 ≤ p.2 ∧ chainSpans rest (p.2 + 1) B

theorem chainSpans_le : ∀ (l : List (Int × Int)) (A B : Int),
    chainSpans l A B → A ≤ B + 1 := by
  intro l
  induction l with
  | nil => intro A B h; exact le_of_eq h
  | cons p rest ih =>
    intro A B h
    obtain ⟨h1, h2, h3⟩ := h
    have := ih (p.2 + 1) B h3
    omega

theorem chainSpans_start_le : ∀ (l : List (Int × Int)) (A B : Int),
    chainSpans l A B → ∀ q ∈ l, A ≤ q.1 := by
  intro l
  induction l with
  | nil => intro A B _ q hq; simp at hq
  | cons p rest ih =>
    intro A B h q hq
    obtain ⟨h1, h2, h3⟩ := h
    rcases List.mem_cons.mp hq with rfl | hmem
    · omega
    · have := ih (p.2 + 1) B h3 q hmem
      omega

/-- Chained spans cover exactly the window `[A, B]`. -/
theorem chainSpans_cover : ∀ (l : List (Int × Int)) (A B : Int),
    chainSpans l A B →
    ∀ t : Int, (A ≤ t ∧ t ≤ B) ↔ ∃ q ∈ l, q.1 ≤ t ∧ t ≤ q.2 := by
  intro l
  induction l with
  | nil =>
    intro A B h t
    have hAB : A = B + 1 := h
    simp only [List.not_mem_nil, false_and, exists_false, iff_false,
      not_and, not_le, exists_const]
    omega
  | cons p rest ih =>
    intro A B h t
    obtain ⟨h1, h2, h3⟩ := h
    have hple : p.2 ≤ B := by
      have := chainSpans_le rest (p.2 + 1) B h3
      omega
    constructor
    · rintro ⟨ht1, ht2⟩
      by_cases hcase : t ≤ p.2
      · exact ⟨p, List.mem_cons_self p rest, by omega, hcase⟩
      · obtain ⟨q, hq, hq1, hq2⟩ := (ih (p.2 + 1) B h3 t).mp (by omega)
        exact ⟨q, List.mem_cons_of_mem p hq, hq1, hq2⟩
    · rintro ⟨q, hq, hq1, hq2⟩
      rcases List.mem_cons.mp hq with rfl | hmem
      · omega
      · have := (ih (p.2 + 1) B h3 t).mpr ⟨q, hmem, hq1, hq2⟩
        omega

/-- Chained spans are pairwise disjoint. -/
theorem chainSpans_pairwise : ∀ (l : List (Int × Int)) (A B : Int),
    chainSpans l A B →
    l.Pairwise (fun p q => ∀ t : Int,
      ¬(p.1 ≤ t ∧ t ≤ p.2 ∧ q.1 ≤ t ∧ t ≤ q.2)) := by
  intro l
  induction l with
  | nil => intro A B _; exact List.Pairwise.nil
  | cons p rest ih =>
    intro A B h
    obtain ⟨h1, h2, h3⟩ := h
    refine List.Pairwise.cons ?_ (ih (p.2 + 1) B h3)
    intro q hq t ht
    have := chainSpans_start_le rest (p.2 + 1) B h3 q hq
    omega

/-- The slot-placement retry loop changes only allocations: spans and length
are preserved. -/
theorem place_one_zone_spans (g : Nat → Nat) (alloc : Nat) :
    ∀ (fuel k : Nat) (zones zones' : List DataZone) (k' : Nat),
    place_one_zone g alloc fuel k zones = .ok (zones', k') →
    zones'.map (fun z => (z.start_time, z.end_time)) =
      zones.map (fun z => (z.start_time, z.end_time)) := by
  intro fuel
  induction fuel with
  | zero => intro k zones zones' k' h; cases h
  | succ m ih =>
    intro k zones zones' k' h
    unfold place_one_zone at h
    cases hr : rrange g k 0 (zones.length : Int) with
    | error e => rw [hr] at h; cases h
    | ok p =>
      rw [hr] at h
      obtain ⟨idx, k1⟩ := p
      dsimp only at h
      cases hget : zones[idx.toNat]? with
      | none => rw [hget] at h; cases h
      | some z =>
        rw [hget] at h
        dsimp only at h
        by_cases hz : z.num_rows_to_add = 0
        · rw [if_pos hz] at h
          cases h
          exact map_span_set zones idx.toNat z alloc hget
        · rw [if_neg hz] at h
          exact ih k1 zones zones' k' h

theorem place_all_zones_spans (g : Nat → Nat) (fuel : Nat) :
    ∀ (allocs : List Nat) (zones : List DataZone) (k : Nat)
      (zones' : List DataZone) (k' : Nat),
    place_all_zones g fuel allocs (zones, k) = .ok (zones', k') →
    zones'.map (fun z => (z.start_time, z.end_time)) =
      zones.map (fun z => (z.start_time, z.end_time)) := by
  intro allocs
  induction allocs with
  | nil => intro zones k zones' k' h; cases h; rfl
  | cons a rest ih =>
    intro zones k zones' k' h
    unfold place_all_zones at h
    cases hp : place_one_zone g a fuel k zones with
    | error e => rw [hp] at h; cases h
    | ok q =>
      rw [hp] at h
      obtain ⟨zones1, k1⟩ := q
      have h1 := place_one_zone_spans g a fuel k zones zones1 k1 hp
      have h2 := ih zones1 k1 zones' k' h
      rw [h2, h1]

/-- The candidate-slot spans produced by the boundary computation form a
chain over the whole window. -/
theorem boundary_spans_chain (start dur : Int) (LN : Nat) (s : Int)
    (hs0 : 0 ≤ s) (hsL : s * (LN : Int) ≤ dur) :
    ∀ (n i : Nat), 1 ≤ n → i + n = LN →
    chainSpans ((List.range' i n).map (fun (j : Nat) =>
      (start + s * (j : Int),
        if j = LN - 1 then start + dur
        else start + s * (j : Int) + (s - 1)))) (start + s * (i : Int))
      (start + dur) := by
  intro n
  induction n with
  | zero => intro i h1 _; omega
  | succ m ih =>
    intro i h1 hiL
    rw [List.range'_succ, List.map_cons]
    cases m with
    | zero =>
      have hi : i = LN - 1 := by omega
      have hmul : s * ((LN - 1 : Nat) : Int) ≤ s * (LN : Int) := by
        apply mul_le_mul_of_nonneg_left _ hs0
        exact_mod_cast Nat.sub_le LN 1
      subst hi
      refine ⟨rfl, ?_, ?_⟩
      · rw [if_pos rfl]
        omega
      · rw [if_pos rfl]
        show (start + dur) + 1 = (start + dur) + 1
        rfl
    | succ m' =>
      have hne : i ≠ LN - 1 := by omega
      refine ⟨rfl, ?_, ?_⟩
      · rw [if_neg hne]
        omega
      · rw [if_neg hne]
        have hstep := ih (i + 1) (by omega) (by omega)
        have hA : start + s * ((i + 1 : Nat) : Int) =
            start + s * (i : Int) + (s - 1) + 1 := by
          push_cast
          ring
        rw [hA] at hstep
        exact hstep

/-- Claim C8: the candidate-slot subdivision produces exactly
`generation_factor * Z` slots whose inclusive spans are pairwise
non-overlapping and jointly cover the entire window `[start, start + dur]`
with no gap, the last candidate slot absorbing the rounding remainder by
ending exactly at `start + dur`. -/
theorem sparse_zone_boundaries_cover (g : Nat → Nat) (k fuel : Nat)
    (allocs : List Nat) (factor : Nat) (start dur : Int)
    (zones : List DataZone) (k' : Nat)
    (hf : 0 < factor) (ha : 0 < allocs.length) (hdur : 0 < dur)
    (h : generate_sparse_fill_zone_and_boundaries g k fuel allocs factor start
      dur = .ok (zones, k')) :
    zones.length = factor * allocs.length ∧
    (∀ t : Int, (start ≤ t ∧ t ≤ start + dur) ↔
      ∃ z ∈ zones, z.start_time ≤ t ∧ t ≤ z.end_time) ∧
    zones.Pairwise (fun z1 z2 => ∀ t : Int,
      ¬(z1.start_time ≤ t ∧ t ≤ z1.end_time ∧ z2.start_time ≤ t ∧
        t ≤ z2.end_time)) ∧
    (∃ zlast, zones[factor * allocs.length - 1]? = some zlast ∧
      zlast.end_time = start + dur) := by
  unfold generate_sparse_fill_zone_and_boundaries at h
  have hLN0 : ¬(factor * allocs.length = 0) := by
    have := Nat.mul_pos hf ha
    omega
  rw [if_neg hLN0] at h
  dsimp only at h
  have hspans := place_all_zones_spans g fuel allocs _ k zones k' h
  rw [List.map_map] at hspans
  set LN := factor * allocs.length with hLNdef
  set s := Int.tdiv dur (LN : Int) with hsdef
  have hdurcast : ((dur.toNat : Nat) : Int) = dur := Int.toNat_of_nonneg (by omega)
  have hseq : s = ((dur.toNat / LN : Nat) : Int) := by
    rw [hsdef]
    conv_lhs => rw [← hdurcast]
    rw [int_tdiv_coe dur.toNat (LN : Int) (by exact_mod_cast Nat.pos_of_ne_zero (by omega))]
    rw [Int.toNat_natCast]
  have hs0 : 0 ≤ s := by
    rw [hseq]
    exact Int.natCast_nonneg _
  have hsL : s * (LN : Int) ≤ dur := by
    rw [hseq, ← hdurcast]
    have : dur.toNat / LN * LN ≤ dur.toNat := Nat.div_mul_le_self _ _
    exact_mod_cast this
  have hchain := boundary_spans_chain start dur LN s hs0 hsL LN 0 (by omega)
    (by omega)
  have hzero : start + s * ((0 : Nat) : Int) = start := by
    push_cast
    ring
  rw [hzero] at hchain
  have hform : zones.map (fun z => (z.start_time, z.end_time)) =
      (List.range' 0 LN).map (fun (j : Nat) =>
        (start + s * (j : Int),
          if j = LN - 1 then start + dur
          else start + s * (j : Int) + (s - 1))) := by
    rw [hspans, ← List.range_eq_range']
    rfl
  rw [hform] at hspans
  have hchain' := hform ▸ hchain
  refine ⟨?_, ?_, ?_, ?_⟩
  · have := congrArg List.length hform
    simp only [List.length_map, List.length_range'] at this
    exact this
  · intro t
    rw [chainSpans_cover _ _ _ hchain' t]
    constructor
    · rintro ⟨q, hq, hq1, hq2⟩
      obtain ⟨z, hz, rfl⟩ := List.mem_map.mp hq
      exact ⟨z, hz, hq1, hq2⟩
    · rintro ⟨z, hz, hz1, hz2⟩
      exact ⟨(z.start_time, z.end_time), List.mem_map_of_mem _ hz, hz1, hz2⟩
  · have hpw := chainSpans_pairwise _ _ _ hchain'
    rw [List.pairwise_map] at hpw
    exact hpw
  · have hget : (zones.map (fun z => (z.start_time, z.end_time)))[LN - 1]? =
        some (start + s * ((LN - 1 : Nat) : Int), start + dur) := by
      rw [hform]
      rw [List.getElem?_map]
      have : (List.range' 0 LN)[LN - 1]? = some (LN - 1) := by
        rw [← List.range_eq_range', List.getElem?_range (by omega)]
      rw [this]
      simp
    rw [List.getElem?_map] at hget
    cases hz : zones[LN - 1]? with
    | none => rw [hz] at hget; cases hget
    | some z =>
      rw [hz] at hget
      simp only [Option.map_some', Option.some_inj] at hget
      refine ⟨z, rfl, ?_⟩
      have := congrArg Prod.snd hget
      exact this

/-- Claim C8 witness: the covering theorem applied to the concrete run with
three zone allocations, generation factor 3 and a 72-second window. -/
theorem sparse_zone_boundaries_cover_witness :
    generate_sparse_fill_zone_and_boundaries (fun j => j) 0 100 [3, 3, 4] 3 0
        72 =
      .ok ([⟨0, 7, 3⟩, ⟨8, 15, 3⟩, ⟨16, 23, 4⟩, ⟨24, 31, 0⟩, ⟨32, 39, 0⟩,
        ⟨40, 47, 0⟩, ⟨48, 55, 0⟩, ⟨56, 63, 0⟩, ⟨64, 72, 0⟩], 3) ∧
    ([⟨0, 7, 3⟩, ⟨8, 15, 3⟩, ⟨16, 23, 4⟩, ⟨24, 31, 0⟩, ⟨32, 39, 0⟩,
      ⟨40, 47, 0⟩, ⟨48, 55, 0⟩, ⟨56, 63, 0⟩, ⟨64, 72, 0⟩] :
        List DataZone).length = 3 * [3, 3, 4].length ∧
    (∀ t : Int, ((0 : Int) ≤ t ∧ t ≤ 0 + 72) ↔
      ∃ z ∈ ([⟨0, 7, 3⟩, ⟨8, 15, 3⟩, ⟨16, 23, 4⟩, ⟨24, 31, 0⟩, ⟨32, 39, 0⟩,
        ⟨40, 47, 0⟩, ⟨48, 55, 0⟩, ⟨56, 63, 0⟩, ⟨64, 72, 0⟩] : List DataZone),
        z.start_time ≤ t ∧ t ≤ z.end_time) := by
  have hrun : generate_sparse_fill_zone_and_boundaries (fun j => j) 0 100
      [3, 3, 4] 3 0 72 =
      .ok ([⟨0, 7, 3⟩, ⟨8, 15, 3⟩, ⟨16, 23, 4⟩, ⟨24, 31, 0⟩, ⟨32, 39, 0⟩,
        ⟨40, 47, 0⟩, ⟨48, 55, 0⟩, ⟨56, 63, 0⟩, ⟨64, 72, 0⟩], 3) := by decide
  have hth := sparse_zone_boundaries_cover (fun j => j) 0 100 [3, 3, 4] 3 0 72
    _ 3 (by decide) (by decide) (by decide) hrun
  exact ⟨hrun, hth.1, hth.2.1⟩

/-! Claim C2: sparse-fill conservation. -/

theorem natSum_const_map (m c : Nat) :
    ((List.range m).map (fun _ => c)).sum = m * c := by
  induction m with
  | zero => simp
  | succ n ih =>
    rw [List.range_succ, List.map_append, List.sum_append, ih]
    simp
    ring

/-- The zone-allocation base fill distributes the whole target across the
zones. -/
theorem zone_first_fill_props (Z target : Nat) (hz : 1 ≤ Z) :
    (zone_first_fill Z target (target / Z)).sum = target ∧
    (zone_first_fill Z target (target / Z)).length = Z := by
  have hle : target / Z * (Z - 1) ≤ target := by
    have h1 : target / Z * Z ≤ target := Nat.div_mul_le_self _ _
    have h2 : target / Z * (Z - 1) ≤ target / Z * Z :=
      Nat.mul_le_mul_left _ (by omega)
    omega
  rw [zone_first_fill_char Z target (target / Z) hz]
  constructor
  · rw [List.sum_append, natSum_const_map]
    simp only [List.sum_cons, List.sum_nil, Nat.add_zero]
    have hcomm : (Z - 1) * (target / Z) = target / Z * (Z - 1) :=
      Nat.mul_comm _ _
    omega
  · rw [List.length_append]
    simp
    omega

/-- Placing one allocation adds it to the zones' allocation total, keeps
every allocation within the bound, and preserves the zone count. -/
theorem place_one_zone_nums (g : Nat → Nat) (alloc M : Nat)
    (hallocM : alloc ≤ M) :
    ∀ (fuel k : Nat) (zones zones' : List DataZone) (k' : Nat),
    (∀ z ∈ zones, z.num_rows_to_add ≤ M) →
    place_one_zone g alloc fuel k zones = .ok (zones', k') →
    (zones'.map (fun z => z.num_rows_to_add)).sum =
      (zones.map (fun z => z.num_rows_to_add)).sum + alloc ∧
    (∀ z ∈ zones', z.num_rows_to_add ≤ M) := by
  intro fuel
  induction fuel with
  | zero => intro k zones zones' k' _ h; cases h
  | succ m ih =>
    intro k zones zones' k' hM h
    unfold place_one_zone at h
    cases hr : rrange g k 0 (zones.length : Int) with
    | error e => rw [hr] at h; cases h
    | ok p =>
      rw [hr] at h
      obtain ⟨idx, k1⟩ := p
      dsimp only at h
      cases hget : zones[idx.toNat]? with
      | none => rw [hget] at h; cases h
      | some z =>
        rw [hget] at h
        dsimp only at h
        by_cases hz : z.num_rows_to_add = 0
        · rw [if_pos hz] at h
          cases h
          constructor
          · have hmap : (zones.set idx.toNat
                { z with num_rows_to_add := alloc }).map
                (fun z => z.num_rows_to_add) =
                (zones.map (fun z => z.num_rows_to_add)).set idx.toNat alloc :=
              List.map_set ..
            have hgetm : (zones.map (fun z => z.num_rows_to_add))[idx.toNat]? =
                some z.num_rows_to_add := by
              rw [List.getElem?_map, hget]
              rfl
            have := natSum_set (zones.map (fun z => z.num_rows_to_add))
              idx.toNat z.num_rows_to_add alloc hgetm
            rw [hmap]
            omega
          · intro y hy
            rcases List.mem_or_eq_of_mem_set hy with hmem | rfl
            · exact hM y hmem
            · exact hallocM
        · rw [if_neg hz] at h
          exact ih k1 zones zones' k' hM h

/-- Placing every allocation makes the zones' allocation total the sum of
the allocations, each within the bound. -/
theorem place_all_zones_nums (g : Nat → Nat) (fuel : Nat) (M : Nat) :
    ∀ (allocs : List Nat) (zones : List DataZone) (k : Nat)
      (zones' : List DataZone) (k' : Nat),
    (∀ a ∈ allocs, a ≤ M) → (∀ z ∈ zones, z.num_rows_to_add ≤ M) →
    place_all_zones g fuel allocs (zones, k) = .ok (zones', k') →
    (zones'.map (fun z => z.num_rows_to_add)).sum =
      (zones.map (fun z => z.num_rows_to_add)).sum + allocs.sum ∧
    (∀ z ∈ zones', z.num_rows_to_add ≤ M) := by
  intro allocs
  induction allocs with
  | nil =>
    intro zones k zones' k' _ hM h
    cases h
    exact ⟨by simp, hM⟩
  | cons a rest ih =>
    intro zones k zones' k' hA hM h
    unfold place_all_zones at h
    cases hp : place_one_zone g a fuel k zones with
    | error e => rw [hp] at h; cases h
    | ok q =>
      rw [hp] at h
      obtain ⟨zones1, k1⟩ := q
      have h1 := place_one_zone_nums g a M (hA a (List.mem_cons_self a rest))
        fuel k zones zones1 k1 hM hp
      have h2 := ih zones1 k1 zones' k'
        (fun x hx => hA x (List.mem_cons_of_mem a hx)) h1.2 h
      refine ⟨?_, h2.2⟩
      rw [h2.1, h1.1]
      simp
      ring

/-- After the boundary computation the zones carry exactly the allocations
(summing to the allocation total), and — when the window is at least twice
the slot count — every zone's duration is at least one second and fits
`u32`. -/
theorem boundaries_props (g : Nat → Nat) (k fuel : Nat) (allocs : List Nat)
    (factor : Nat) (start dur : Int) (zones : List DataZone) (k' : Nat)
    (hf : 0 < factor) (ha : 0 < allocs.length)
    (hL18 : factor * allocs.length ≤ 18)
    (hdur36 : 36 ≤ dur) (hdur32 : dur < 4294967296)
    (hM : ∀ a ∈ allocs, a ≤ 32767)
    (h : generate_sparse_fill_zone_and_boundaries g k fuel allocs factor start
      dur = .ok (zones, k')) :
    (zones.map (fun z => z.num_rows_to_add)).sum = allocs.sum ∧
    (∀ z ∈ zones, z.num_rows_to_add ≤ 32767 ∧
      1 ≤ z.end_time - z.start_time ∧
      z.end_time - z.start_time < 4294967296) := by
  unfold generate_sparse_fill_zone_and_boundaries at h
  have hLN0 : ¬(factor * allocs.length = 0) := by
    have := Nat.mul_pos hf ha
    omega
  rw [if_neg hLN0] at h
  dsimp only at h
  set LN := factor * allocs.length with hLNdef
  set s := Int.tdiv dur (LN : Int) with hsdef
  have hLN1 : 1 ≤ LN := by omega
  have hdurcast : ((dur.toNat : Nat) : Int) = dur :=
    Int.toNat_of_nonneg (by omega)
  have hseq : s = ((dur.toNat / LN : Nat) : Int) := by
    rw [hsdef]
    conv_lhs => rw [← hdurcast]
    rw [int_tdiv_coe dur.toNat (LN : Int)
      (by exact_mod_cast Nat.pos_of_ne_zero (by omega))]
    rw [Int.toNat_natCast]
  have hdN36 : 36 ≤ dur.toNat := by omega
  have hs2N : 2 ≤ dur.toNat / LN := by
    have h1 : 36 / 18 ≤ 36 / LN := Nat.div_le_div_left hL18 (by omega)
    have h2 : 36 / LN ≤ dur.toNat / LN := Nat.div_le_div_right hdN36
    omega
  have hs2 : 2 ≤ s := by
    rw [hseq]
    exact_mod_cast hs2N
  have hsdur : s ≤ dur := by
    rw [hseq, ← hdurcast]
    have : dur.toNat / LN ≤ dur.toNat := Nat.div_le_self _ _
    exact_mod_cast this
  have hsL : s * (LN : Int) ≤ dur := by
    rw [hseq, ← hdurcast]
    have : dur.toNat / LN * LN ≤ dur.toNat := Nat.div_mul_le_self _ _
    exact_mod_cast this
  -- the base zones
  have hbase0 : ∀ z ∈ (List.range LN).map (fun (i : Nat) =>
      ({ start_time := start + s * (i : Int)
         end_time := if i = LN - 1 then start + dur
           else start + s * (i : Int) + (s - 1)
         num_rows_to_add := 0 } : DataZone)), z.num_rows_to_add ≤ 32767 := by
    intro z hz
    obtain ⟨i, _, rfl⟩ := List.mem_map.mp hz
    exact Nat.zero_le _
  have hnums := place_all_zones_nums g fuel 32767 allocs _ k zones k' hM
    hbase0 h
  have hspans := place_all_zones_spans g fuel allocs _ k zones k' h
  rw [List.map_map] at hspans
  have hbasesum : (((List.range LN).map (fun (i : Nat) =>
      ({ start_time := start + s * (i : Int)
         end_time := if i = LN - 1 then start + dur
           else start + s * (i : Int) + (s - 1)
         num_rows_to_add := 0 } : DataZone))).map
        (fun z => z.num_rows_to_add)).sum = 0 := by
    rw [List.map_map]
    have h0 := natSum_const_map LN 0
    rw [Nat.mul_zero] at h0
    exact h0
  constructor
  · rw [hnums.1, hbasesum]
    omega
  · intro z hz
    refine ⟨hnums.2 z hz, ?_⟩
    have hmem : (z.start_time, z.end_time) ∈
        zones.map (fun z => (z.start_time, z.end_time)) :=
      List.mem_map_of_mem _ hz
    rw [hspans] at hmem
    obtain ⟨i, hi, hfi⟩ := List.mem_map.mp hmem
    have hiLN : i < LN := List.mem_range.mp hi
    have hstart : start + s * (i : Int) = z.start_time :=
      congrArg Prod.fst hfi
    have hend : (if i = LN - 1 then start + dur
        else start + s * (i : Int) + (s - 1)) = z.end_time :=
      congrArg Prod.snd hfi
    by_cases hlast : i = LN - 1
    · rw [if_pos hlast] at hend
      subst hlast
      have hcast1 : ((LN - 1 : Nat) : Int) = (LN : Int) - 1 := by omega
      have hmul : s * ((LN - 1 : Nat) : Int) + s = s * (LN : Int) := by
        rw [hcast1]
        ring
      rw [← hstart, ← hend]
      constructor
      · omega
      · have hge : 0 ≤ s * ((LN - 1 : Nat) : Int) := by
          apply mul_nonneg (by omega)
          exact Int.natCast_nonneg _
        omega
    · rw [if_neg hlast] at hend
      rw [← hstart, ← hend]
      constructor
      · omega
      · omega

/-- A successful per-zone emission's counts sum exactly to the zone's
allocation, provided the zone's duration is in `[1, 2^32)` and the
allocation fits `i16`. -/
theorem zone_emission_sum (g : Nat → Nat) (k fuel : Nat) (z : DataZone)
    (pts : List DataPoint) (k' : Nat)
    (hd1 : 1 ≤ z.end_time - z.start_time)
    (hd2 : z.end_time - z.start_time < 4294967296)
    (hnum : z.num_rows_to_add ≤ 32767)
    (h : generate_sparse_fill_zone_datapoints g k fuel z = .ok (pts, k')) :
    countSum pts = (z.num_rows_to_add : Int) := by
  unfold generate_sparse_fill_zone_datapoints at h
  have hcast : u32cast (z.end_time - z.start_time) =
      (z.end_time - z.start_time).toNat := by
    unfold u32cast
    omega
  have hne : ¬(u32cast (z.end_time - z.start_time) = 0) := by
    rw [hcast]
    omega
  rw [if_neg hne] at h
  dsimp only at h
  rw [hcast] at h
  set dN := (z.end_time - z.start_time).toNat with hdN
  have hdN1 : 1 ≤ dN := by omega
  set per := z.num_rows_to_add / dN with hper
  have hperle : per ≤ z.num_rows_to_add := Nat.div_le_self _ _
  have hmulle : per * (dN - 1) ≤ z.num_rows_to_add := by
    have h1 : per * dN ≤ z.num_rows_to_add := Nat.div_mul_le_self _ _
    have h2 : per * (dN - 1) ≤ per * dN := Nat.mul_le_mul_left _ (by omega)
    omega
  have hchar := zone_datapoints_first_fill_char z dN per hdN1 hmulle
    (by omega)
  have hfirst : countSum (zone_datapoints_first_fill z dN per) =
      (z.num_rows_to_add : Int) ∧
      ∀ dp ∈ zone_datapoints_first_fill z dN per, 0 ≤ dp.rows_to_add := by
    rw [hchar]
    have hc1 : wrap16 ((per : Nat) : Int) = ((per : Nat) : Int) :=
      wrap16_coe_eq _ (le_trans hperle hnum)
    have hc2 : wrap16 ((z.num_rows_to_add - per * (dN - 1) : Nat) : Int) =
        ((z.num_rows_to_add - per * (dN - 1) : Nat) : Int) :=
      wrap16_coe_eq _ (by omega)
    constructor
    · rw [countSum_append, countSum_singleton]
      dsimp only
      rw [hc1, hc2, countSum_const_map]
      have hmulcast : ((dN - 1 : Nat) : Int) * ((per : Nat) : Int) =
          ((per * (dN - 1) : Nat) : Int) := by
        push_cast
        ring
      rw [hmulcast]
      omega
    · intro dp hdp
      rcases List.mem_append.mp hdp with hmem | hmem
      · obtain ⟨i, _, rfl⟩ := List.mem_map.mp hmem
        dsimp only
        rw [hc1]
        exact Int.natCast_nonneg _
      · rcases List.mem_singleton.mp hmem with rfl
        dsimp only
        rw [hc2]
        exact Int.natCast_nonneg _
  have hinv := exFold_inv
    (P := fun a => countSum a.1 = (z.num_rows_to_add : Int) ∧
      ∀ dp ∈ a.1, 0 ≤ dp.rows_to_add)
    (fun a b hPa hab => by
      have hstep := zone_datapoints_shuffle_step_inv hPa.2
        (by rw [hPa.1]; exact_mod_cast hnum) hab
      exact ⟨by rw [hstep.1, hPa.1], hstep.2.1⟩)
    ⟨hfirst.1, hfirst.2⟩ h
  exact hinv.1

/-- The emission loop appends, for every occupied zone, datapoints summing
to that zone's allocation, so the total grows by the zones' allocation
total. -/
theorem sparse_emit_sum (g : Nat → Nat) (fuel : Nat) :
    ∀ (zones : List DataZone) (pts : List DataPoint) (k : Nat)
      (r : List DataPoint) (k' : Nat),
    (∀ z ∈ zones, z.num_rows_to_add ≤ 32767 ∧
      (0 < z.num_rows_to_add → 1 ≤ z.end_time - z.start_time ∧
        z.end_time - z.start_time < 4294967296)) →
    sparse_emit g fuel zones (pts, k) = .ok (r, k') →
    countSum r = countSum pts +
      ((zones.map (fun z => z.num_rows_to_add)).sum : Int) := by
  intro zones
  induction zones with
  | nil =>
    intro pts k r k' _ h
    cases h
    simp
  | cons z rest ih =>
    intro pts k r k' hgood h
    unfold sparse_emit at h
    by_cases hocc : 0 < z.num_rows_to_add
    · rw [if_pos hocc] at h
      cases hem : generate_sparse_fill_zone_datapoints g k fuel z with
      | error e => rw [hem] at h; cases h
      | ok q =>
        rw [hem] at h
        obtain ⟨zpts, k1⟩ := q
        have hz := hgood z (List.mem_cons_self z rest)
        have hsum := zone_emission_sum g k fuel z zpts k1 (hz.2 hocc).1
          (hz.2 hocc).2 hz.1 hem
        have := ih (pts ++ zpts) k1 r k'
          (fun x hx => hgood x (List.mem_cons_of_mem z hx)) h
        rw [this, countSum_append, hsum]
        simp
        ring
    · rw [if_neg hocc] at h
      have := ih pts k r k'
        (fun x hx => hgood x (List.mem_cons_of_mem z hx)) h
      rw [this]
      have hz0 : z.num_rows_to_add = 0 := by omega
      simp [hz0]

/-- Claim C2 counterexample: with target 10 over a 9-second window (zone
count 3 drawn, slot span 1, occupied slots of zero duration) a sparse-fill
run panics with division by zero instead of emitting datapoints summing to
the target. -/
theorem sparse_fill_counterexample :
    generate_datapoints_sparse_fill (fun j => j) 0 100 0 9 10 =
      .error .panicked := by decide

/-- Claim C2 (amended): the zone count is always drawn from `[3, 6]`; and
for windows of at least 36 seconds (so every candidate slot spans at least
2 seconds) below `2^32` seconds and targets within the `i16` value range,
every sparse-fill run that completes without failing emits (non-gap)
DataPoints whose counts sum exactly to the target.  For shorter windows an
occupied slot can have zero duration, panicking on division by zero or
emitting nothing. -/
theorem sparse_fill_conservation :
    (∀ (g : Nat → Nat) (k : Nat) (z : Int) (k2 : Nat),
      rrange g k 3 7 = .ok (z, k2) → 3 ≤ z ∧ z ≤ 6) ∧
    (∀ (g : Nat → Nat) (k fuel : Nat) (start dur : Int) (target : Nat)
        (l : List DataPoint),
      36 ≤ dur → dur < 4294967296 → target ≤ 32767 →
      generate_datapoints_sparse_fill g k fuel start dur target = .ok l →
      countSum l = (target : Int)) := by
  constructor
  · intro g k z k2 h
    have := rrange_bounds h
    omega
  · intro g k fuel start dur target l h36 h32 ht h
    unfold generate_datapoints_sparse_fill at h
    cases hz : rrange g k 3 7 with
    | error e => rw [hz] at h; cases h
    | ok p =>
      rw [hz] at h
      obtain ⟨noz, k1⟩ := p
      dsimp only at h
      have hzb := rrange_bounds hz
      have hZN : 3 ≤ noz.toNat ∧ noz.toNat ≤ 6 := by omega
      have hff := zone_first_fill_props noz.toNat target (by omega)
      cases hsh : exFold (zone_shuffle_step g fuel noz.toNat)
          (noz.toNat * 5)
          (zone_first_fill noz.toNat target (target / noz.toNat), k1) with
      | error e => rw [hsh] at h; cases h
      | ok q =>
        rw [hsh] at h
        obtain ⟨allocs, k2⟩ := q
        dsimp only at h
        have hinv := exFold_inv
          (P := fun a => a.1.sum = target ∧ a.1.length = noz.toNat)
          (fun a b hPa hab => by
            have hstep := zone_shuffle_step_inv hab
            refine ⟨?_, ?_⟩
            · show b.1.sum = target
              rw [hstep.1]
              exact hPa.1
            · show b.1.length = noz.toNat
              rw [hstep.2]
              exact hPa.2)
          ⟨hff.1, hff.2⟩ hsh
        have hallocs_sum : allocs.sum = target := hinv.1
        have hallocs_len : allocs.length = noz.toNat := hinv.2
        have hM : ∀ a ∈ allocs, a ≤ 32767 := by
          intro a haa
          have := natMem_le_sum allocs a haa
          omega
        cases hb : generate_sparse_fill_zone_and_boundaries g k2 fuel allocs
            DEFAULT_SPARSE_FILL_ZONE_GENERATION_FACTOR start dur with
        | error e => rw [hb] at h; cases h
        | ok q2 =>
          rw [hb] at h
          obtain ⟨zone_slots, k3⟩ := q2
          dsimp only at h
          have hfac : DEFAULT_SPARSE_FILL_ZONE_GENERATION_FACTOR = 3 := rfl
          have hbp := boundaries_props g k2 fuel allocs
            DEFAULT_SPARSE_FILL_ZONE_GENERATION_FACTOR start dur zone_slots
            k3 (by rw [hfac]; omega) (by rw [hallocs_len]; omega)
            (by rw [hfac, hallocs_len]; omega) h36 h32 hM hb
          cases he : sparse_emit g fuel zone_slots ([], k3) with
          | error e => rw [he] at h; cases h
          | ok q3 =>
            rw [he] at h
            obtain ⟨dps, k4⟩ := q3
            cases h
            have hgood : ∀ z ∈ zone_slots, z.num_rows_to_add ≤ 32767 ∧
                (0 < z.num_rows_to_add → 1 ≤ z.end_time - z.start_time ∧
                  z.end_time - z.start_time < 4294967296) := by
              intro z hzz
              have := hbp.2 z hzz
              exact ⟨this.1, fun _ => ⟨this.2.1, this.2.2⟩⟩
            have hes := sparse_emit_sum g fuel zone_slots [] k3 l k4 hgood he
            have hcast : (List.map (fun z => (z.num_rows_to_add : Int))
                zone_slots).sum =
                (((List.map (fun z => z.num_rows_to_add) zone_slots).sum :
                  Nat) : Int) := by
              rw [Nat.cast_list_sum, List.map_map]
              rfl
            rw [hes, hcast, hbp.1, hallocs_sum]
            simp [countSum]

set_option maxRecDepth 4000 in
/-- Claim C2 witness: the conservation theorem applied to the completed
concrete run with target 30 over a 72-second window (and the zone-count
draw bound applied to its first draw). -/
theorem sparse_fill_conservation_witness :
    (3 ≤ (3 : Int) ∧ (3 : Int) ≤ 6) ∧
    generate_datapoints_sparse_fill (fun j => j) 0 1000 0 72 30 =
      .ok [⟨0, 1⟩, ⟨1, 1⟩, ⟨2, 2⟩, ⟨3, 1⟩, ⟨4, 1⟩, ⟨5, 1⟩, ⟨6, 1⟩, ⟨56, 2⟩,
        ⟨57, 2⟩, ⟨58, 5⟩, ⟨59, 2⟩, ⟨60, 1⟩, ⟨61, 2⟩, ⟨62, 5⟩, ⟨64, 0⟩,
        ⟨65, 0⟩, ⟨66, 0⟩, ⟨67, 0⟩, ⟨68, 0⟩, ⟨69, 0⟩, ⟨70, 0⟩, ⟨71, 3⟩] ∧
    countSum [⟨0, 1⟩, ⟨1, 1⟩, ⟨2, 2⟩, ⟨3, 1⟩, ⟨4, 1⟩, ⟨5, 1⟩, ⟨6, 1⟩,
      ⟨56, 2⟩, ⟨57, 2⟩, ⟨58, 5⟩, ⟨59, 2⟩, ⟨60, 1⟩, ⟨61, 2⟩, ⟨62, 5⟩,
      ⟨64, 0⟩, ⟨65, 0⟩, ⟨66, 0⟩, ⟨67, 0⟩, ⟨68, 0⟩, ⟨69, 0⟩, ⟨70, 0⟩,
      ⟨71, 3⟩] = (30 : Int) := by
  have hdraw : rrange (fun j => j) 0 3 7 = .ok (3, 1) := by decide
  have hrun : generate_datapoints_sparse_fill (fun j => j) 0 1000 0 72 30 =
      .ok [⟨0, 1⟩, ⟨1, 1⟩, ⟨2, 2⟩, ⟨3, 1⟩, ⟨4, 1⟩, ⟨5, 1⟩, ⟨6, 1⟩, ⟨56, 2⟩,
        ⟨57, 2⟩, ⟨58, 5⟩, ⟨59, 2⟩, ⟨60, 1⟩, ⟨61, 2⟩, ⟨62, 5⟩, ⟨64, 0⟩,
        ⟨65, 0⟩, ⟨66, 0⟩, ⟨67, 0⟩, ⟨68, 0⟩, ⟨69, 0⟩, ⟨70, 0⟩,
        ⟨71, 3⟩] := by decide
  refine ⟨sparse_fill_conservation.1 (fun j => j) 0 3 1 hdraw, hrun, ?_⟩
  exact sparse_fill_conservation.2 (fun j => j) 0 1000 0 72 30 _ (by decide)
    (by decide) (by decide) hrun
